import Mathlib

/-!
# SamurAI Audio Trails: the Windows audio capture engine

A shallow embedding of `windows/runner/audio_capture.cpp` and of the
transport encoding in `windows/runner/audio_capture_handler.cpp`.

* The platform (WASAPI / COM) is the environment.  Every value the platform
  hands back to the code (an `HRESULT`, an out-pointer, a packet) is an input
  of the model, so every theorem quantifies over all platform behaviours.
* `CaptureThread` is a step machine: one step for the straight-line set-up
  code, one for each evaluation of the outer loop condition, one for each
  iteration of the inner draining loop, one for the fall-through to `Sleep`.
* The engine object is a record of its data members.  The public calls are
  functions on that record; `join` is the only blocking point and is a
  separate step that is enabled once the joined worker has returned.
* Everything the code does to the outside world is appended to a log of
  operations, tagged with the thread that performed it.
* `OnAudioData` is its loop over a `size_t` index, with fuel; it is compared
  with the encoder and decoder of RFC 4648 written out separately.
-/

namespace AudioCapture

/-! ## Platform vocabulary -/

/-- Windows result code, a signed 32-bit value; only its sign and the two
success values below are inspected by the code. -/
abbrev HRESULT := Int

/-- The `S_OK` success code of `winerror.h`. -/
def S_OK : HRESULT := 0

/-- The `S_FALSE` success code of `winerror.h`. -/
def S_FALSE : HRESULT := 1

/-- The `AUDCLNT_E_UNSUPPORTED_FORMAT` code, `0x88890008` read as a signed value. -/
def AUDCLNT_E_UNSUPPORTED_FORMAT : HRESULT := -2004287480

/-- The `E_FAIL` code, `0x80004005` read as a signed value. -/
def E_FAIL : HRESULT := -2147467259

/-- The `SUCCEEDED` test of `winerror.h`: the code is non-negative. -/
def SUCCEEDED (hr : HRESULT) : Bool := decide (0 ≤ hr)

/-- The `FAILED` test of `winerror.h`: the code is negative. -/
def FAILED (hr : HRESULT) : Bool := decide (hr < 0)

/-- The `VT_LPWSTR` variant tag of `wtypes.h`. -/
def VT_LPWSTR : Nat := 31

/-- The `WAVE_FORMAT_PCM` format tag of `mmreg.h`. -/
def WAVE_FORMAT_PCM : Nat := 1

/-- The `AUDCLNT_BUFFERFLAGS_SILENT` bit of `audioclient.h`. -/
def AUDCLNT_BUFFERFLAGS_SILENT : Nat := 2

/-- The stream format block of `mmreg.h`. -/
structure WAVEFORMATEX where
  wFormatTag : Nat
  nChannels : Nat
  nSamplesPerSec : Nat
  nAvgBytesPerSec : Nat
  nBlockAlign : Nat
  wBitsPerSample : Nat
  cbSize : Nat
deriving DecidableEq, Repr

/-! ## Constants of `audio_capture.cpp` -/

def SAMPLE_RATE : Nat := 44100

def CHANNELS : Nat := 2

def BITS_PER_SAMPLE : Nat := 16

def BLOCK_ALIGN : Nat := CHANNELS * BITS_PER_SAMPLE / 8

def BYTES_PER_SECOND : Nat := SAMPLE_RATE * BLOCK_ALIGN

/-- The local `desiredFormat` that `CaptureThread` fills in before negotiating. -/
def desiredFormat : WAVEFORMATEX :=
  { wFormatTag := WAVE_FORMAT_PCM
    nChannels := CHANNELS
    nSamplesPerSec := SAMPLE_RATE
    wBitsPerSample := BITS_PER_SAMPLE
    nBlockAlign := BLOCK_ALIGN
    nAvgBytesPerSec := BYTES_PER_SECOND
    cbSize := 0 }

/-! ## Device enumeration -/

/-- The `AudioDevice` record of `audio_capture.h`. -/
structure AudioDevice where
  id : String
  name : String
  isInput : Bool
deriving DecidableEq, Repr

/-- What the platform answers for one index of the device collection: the
results of `Item`, `GetId`, `OpenPropertyStore` and `GetValue`, with the
identifier and the friendly name already passed through the two-call
`WideCharToMultiByte` idiom. -/
structure Endpoint where
  itemHr : HRESULT
  idHr : HRESULT
  deviceId : String
  storeHr : HRESULT
  valueHr : HRESULT
  vt : Nat
  pwszVal : String
deriving DecidableEq, Repr

/-- Body of the `for` loop of `EnumerateDevices`, one endpoint per iteration;
each `continue` of the source is a recursive call that pushes nothing. -/
def enumerateLoop (input : Bool) : List Endpoint → List AudioDevice → List AudioDevice
  | [], devices => devices
  | ep :: rest, devices =>
    if FAILED ep.itemHr then enumerateLoop input rest devices
    else if FAILED ep.idHr then enumerateLoop input rest devices
    else if FAILED ep.storeHr then enumerateLoop input rest devices
    else
      let name :=
        if SUCCEEDED ep.valueHr && ep.vt == VT_LPWSTR then ep.pwszVal
        else "Unknown Device"
      let audioDevice : AudioDevice := { id := ep.deviceId, name := name, isInput := input }
      enumerateLoop input rest (devices ++ [audioDevice])

/-- The method `AudioCapture::EnumerateDevices`.  `device_enumerator_` says
whether the member is non-null, `enumHr` is the result of `EnumAudioEndpoints`
and `collection` the endpoints of the collection it returned. -/
def EnumerateDevices (device_enumerator_ : Bool) (enumHr : HRESULT)
    (collection : List Endpoint) (input : Bool) (devices : List AudioDevice) :
    Bool × List AudioDevice :=
  if !device_enumerator_ then (false, devices)
  else if FAILED enumHr then (false, devices)
  else (true, enumerateLoop input collection devices)

/-- The method `AudioCapture::GetInputDevices`. -/
def GetInputDevices (device_enumerator_ : Bool) (enumHr : HRESULT)
    (collection : List Endpoint) : List AudioDevice :=
  (EnumerateDevices device_enumerator_ enumHr collection true []).2

/-- The method `AudioCapture::GetOutputDevices`. -/
def GetOutputDevices (device_enumerator_ : Bool) (enumHr : HRESULT)
    (collection : List Endpoint) : List AudioDevice :=
  (EnumerateDevices device_enumerator_ enumHr collection false []).2

/-! ## Native resources and the operation log -/

/-- The native resources `CaptureThread` handles.  The three format blocks
are the block returned by `GetMixFormat`, the block returned through
`closestMatch`, and the stack-resident `desiredFormat`, which the platform
never allocated. -/
inductive Handle
  | device
  | audioClient
  | captureClient
  | mixFormat
  | closestMatch
  | desiredFormat
deriving DecidableEq, Repr

/-- Externally visible operations of a worker. -/
inductive Op
  /-- The platform stored a reference or an allocated block in an out-parameter. -/
  | acquire (h : Handle)
  /-- The calls `Release()` on an interface or `CoTaskMemFree` on a block. -/
  | release (h : Handle)
  /-- The call `GetDefaultAudioEndpoint(render ? eRender : eCapture, eConsole, ..)`. -/
  | getDefaultAudioEndpoint (render : Bool)
  /-- The call `GetDevice(id, ..)`. -/
  | getDevice (id : String)
  /-- The call `IsFormatSupported(AUDCLNT_SHAREMODE_SHARED, &desiredFormat, ..)`. -/
  | isFormatSupported (fmt : WAVEFORMATEX)
  /-- The call `audioClient->Initialize(.., loopbackFlag, .., pwfx, ..)`. -/
  | initClient (loopbackFlag : Bool) (fmt : WAVEFORMATEX)
  /-- The call `audioClient->Start()`. -/
  | startStream
  /-- The call `audioClient->Stop()`. -/
  | stopStream
  /-- The call `callback(data, dataSize)` on the function object `cb`. -/
  | callback (cb : Nat) (dataSize : Nat)
  /-- The call `ReleaseBuffer(frames)`. -/
  | releaseBuffer (frames : Nat)
  /-- The call `Sleep(ms)`. -/
  | sleep (ms : Nat)
deriving DecidableEq, Repr

/-- What the platform answers during the set-up part of `CaptureThread`. -/
structure SetupScript where
  /-- Result of `GetDefaultAudioEndpoint` or `GetDevice`. -/
  deviceHr : HRESULT
  /-- Whether `device` is non-null after that call. -/
  device : Bool
  /-- Result of `Activate`. -/
  activateHr : HRESULT
  /-- Result of `GetMixFormat`. -/
  mixHr : HRESULT
  /-- The block `GetMixFormat` returns. -/
  mixFormat : WAVEFORMATEX
  /-- Result of `IsFormatSupported` (microphone path only). -/
  supportedHr : HRESULT
  /-- The block stored in `closestMatch`, if the pointer is non-null. -/
  closestMatch : Option WAVEFORMATEX
  /-- Result of `Initialize`. -/
  initHr : HRESULT
  /-- Result of `GetService`. -/
  serviceHr : HRESULT
  /-- Result of `Start`. -/
  startHr : HRESULT
deriving DecidableEq, Repr

/-- The pointer `pwfx`: which block it points to and the format stored there. -/
abbrev FormatPtr := Handle × WAVEFORMATEX

/-- The format negotiation of `CaptureThread` (the `if (loopback) .. else ..`
after `desiredFormat` is filled in): the operations performed and the new
value of `pwfx`, which on entry points to the mix format block. -/
def negotiate (loopback : Bool) (p : SetupScript) : List Op × FormatPtr :=
  if loopback then
    -- closestMatch = pwfx
    ([], (Handle.mixFormat, p.mixFormat))
  else
    let call : List Op :=
      Op.isFormatSupported desiredFormat ::
        (match p.closestMatch with
          | some _ => [Op.acquire Handle.closestMatch]
          | none => [])
    if p.supportedHr = S_FALSE then
      match p.closestMatch with
      | some c => (call ++ [Op.release Handle.mixFormat], (Handle.closestMatch, c))
      | none => (call, (Handle.mixFormat, p.mixFormat))
    else if SUCCEEDED p.supportedHr then
      (call ++ [Op.release Handle.mixFormat], (Handle.desiredFormat, desiredFormat))
    else
      (call, (Handle.mixFormat, p.mixFormat))

/-- The set-up part of `CaptureThread`, from its first line to the line before
the capture loop.  Returns the operations performed and either `none`, when
one of the six `return`s was taken (the caller then stores `false` in
`capturing_flag`), or the value of `pwfx` with which the loop is entered.
When `pwfx` points to `desiredFormat`, the `CoTaskMemFree(pwfx)` of an exit is
recorded as `Op.release Handle.desiredFormat`: a free of a block on the
worker's stack, after which the behaviour of the program is not defined.  The
statements about failure exits below are made for the paths without it. -/
def captureSetup (loopback : Bool) (deviceId : String) (p : SetupScript) :
    List Op × Option FormatPtr :=
  let t0 : List Op :=
    (if deviceId.isEmpty then Op.getDefaultAudioEndpoint loopback else Op.getDevice deviceId) ::
      (if p.device then [Op.acquire Handle.device] else [])
  if FAILED p.deviceHr || !p.device then (t0, none)
  else if FAILED p.activateHr then (t0 ++ [Op.release Handle.device], none)
  else
    let t1 := t0 ++ [Op.acquire Handle.audioClient]
    if FAILED p.mixHr then
      (t1 ++ [Op.release Handle.audioClient, Op.release Handle.device], none)
    else
      let t2 := t1 ++ [Op.acquire Handle.mixFormat]
      let n := negotiate loopback p
      let pwfx := n.2
      let t3 := t2 ++ n.1 ++ [Op.initClient loopback pwfx.2]
      if FAILED p.initHr then
        (t3 ++ [Op.release pwfx.1, Op.release Handle.audioClient, Op.release Handle.device], none)
      else if FAILED p.serviceHr then
        (t3 ++ [Op.release pwfx.1, Op.release Handle.audioClient, Op.release Handle.device], none)
      else
        let t4 := t3 ++ [Op.acquire Handle.captureClient, Op.startStream]
        if FAILED p.startHr then
          (t4 ++ [Op.release pwfx.1, Op.release Handle.captureClient,
                  Op.release Handle.audioClient, Op.release Handle.device], none)
        else (t4, some pwfx)

/-- The `// Cleanup` block after the capture loop, up to the final store.
`pwfx` is `none` for a null pointer, on which `CoTaskMemFree` does nothing;
for `pwfx` on `desiredFormat` the recorded release is the free of a stack
block, as in `captureSetup`. -/
def captureCleanup (pwfx : Option FormatPtr) : List Op :=
  Op.stopStream ::
    ((match pwfx with
      | some p => [Op.release p.1]
      | none => []) ++
    [Op.release Handle.captureClient, Op.release Handle.audioClient,
     Op.release Handle.device])

/-! ## The engine object and its worker threads -/

/-- The two `std::atomic<bool>` members a `capturing_flag` reference can denote. -/
inductive FlagRef
  | system_audio_capturing_
  | microphone_capturing_
deriving DecidableEq, Repr

/-- Result of `GetNextPacketSize`. -/
structure PacketSize where
  hr : HRESULT
  packetLength : Nat
deriving DecidableEq, Repr

/-- Result of `GetBuffer`: the result code, the number of frames stored in
`packetLength` and the buffer flags. -/
structure Packet where
  hr : HRESULT
  frames : Nat
  flags : Nat
deriving DecidableEq, Repr

/-- Where a worker stands in `CaptureThread`. -/
inductive Pc
  /-- Spawned, nothing executed yet. -/
  | entry
  /-- About to evaluate the condition of the outer `while`. -/
  | loopHead
  /-- About to evaluate the condition of the inner `while`, with the current
  values of `hr` and `packetLength`. -/
  | inner (hr : HRESULT) (packetLength : Nat)
  /-- The function has returned; the thread is finished but not yet joined. -/
  | returned
deriving DecidableEq, Repr

/-- A running `CaptureThread`: its arguments and its local state.  `callback`
is `none` for an empty `std::function`, otherwise the identity of the target. -/
structure Worker where
  loopback : Bool
  deviceId : String
  callback : Option Nat
  capturing_flag : FlagRef
  pc : Pc
  pwfx : Option FormatPtr
deriving DecidableEq, Repr

/-- The data members of `AudioCapture` that capture uses, for an object whose
`Initialize` succeeded.  A thread member is `none` when it is not joinable.
Threads are named by `true` for `system_audio_thread_` and `false` for
`microphone_thread_`.  `joining` records a `Stop..` call that is blocked in
`join()` while holding `capture_mutex_`; `terminated` records a call of
`std::terminate`; `log` is the history of operations, by thread. -/
structure Engine where
  system_audio_capturing_ : Bool
  microphone_capturing_ : Bool
  should_stop_ : Bool
  system_audio_thread_ : Option Worker
  microphone_thread_ : Option Worker
  joining : Option Bool
  terminated : Bool
  log : List (Bool × Op)
deriving DecidableEq, Repr

/-- The constructor `AudioCapture::AudioCapture`. -/
def Engine.new : Engine :=
  { system_audio_capturing_ := false
    microphone_capturing_ := false
    should_stop_ := false
    system_audio_thread_ := none
    microphone_thread_ := none
    joining := none
    terminated := false
    log := [] }

/-- Atomic load through a `capturing_flag` reference. -/
def Engine.load (e : Engine) : FlagRef → Bool
  | FlagRef.system_audio_capturing_ => e.system_audio_capturing_
  | FlagRef.microphone_capturing_ => e.microphone_capturing_

/-- Atomic store through a `capturing_flag` reference. -/
def Engine.store (e : Engine) (r : FlagRef) (v : Bool) : Engine :=
  match r with
  | FlagRef.system_audio_capturing_ => { e with system_audio_capturing_ := v }
  | FlagRef.microphone_capturing_ => { e with microphone_capturing_ := v }

/-- The thread member named by `t`. -/
def Engine.thread (e : Engine) (t : Bool) : Option Worker :=
  if t then e.system_audio_thread_ else e.microphone_thread_

/-- Overwrite the thread member named by `t`. -/
def Engine.setThread (e : Engine) (t : Bool) (w : Option Worker) : Engine :=
  if t then { e with system_audio_thread_ := w } else { e with microphone_thread_ := w }

/-- The accessors `IsSystemAudioCapturing` (`true`) and `IsMicrophoneCapturing` (`false`). -/
def Engine.isCapturing (e : Engine) (t : Bool) : Bool :=
  if t then e.system_audio_capturing_ else e.microphone_capturing_

/-- Append operations of thread `t` to the log. -/
def Engine.emit (e : Engine) (t : Bool) (ops : List Op) : Engine :=
  { e with log := e.log ++ ops.map (fun o => (t, o)) }

/-- What a start call produced: the value it returned, or `none` when the
call ended in `std::terminate`, and the engine afterwards. -/
structure StartResult where
  returned : Option Bool
  engine : Engine
deriving DecidableEq, Repr

/-- The method `AudioCapture::StartCapture`.  Move-assigning to a thread member
that is still joinable calls `std::terminate`. -/
def StartCapture (e : Engine) (loopback : Bool) (deviceId : String)
    (callback : Option Nat) (capturing_flag : FlagRef) : StartResult :=
  if e.load capturing_flag then
    { returned := some false, engine := e }
  else
    let e1 := e.store capturing_flag true
    let e2 := { e1 with should_stop_ := false }
    let capture_thread : Worker :=
      { loopback := loopback, deviceId := deviceId, callback := callback,
        capturing_flag := capturing_flag, pc := Pc.entry, pwfx := none }
    if loopback then
      if e2.system_audio_thread_.isSome then
        { returned := none, engine := { e2 with terminated := true } }
      else
        { returned := some true,
          engine := { e2 with system_audio_thread_ := some capture_thread } }
    else
      if e2.microphone_thread_.isSome then
        { returned := none, engine := { e2 with terminated := true } }
      else
        { returned := some true,
          engine := { e2 with microphone_thread_ := some capture_thread } }

/-- The method `AudioCapture::StartSystemAudioCapture`. -/
def StartSystemAudioCapture (e : Engine) (deviceId : String) (callback : Option Nat) :
    StartResult :=
  StartCapture e true deviceId callback FlagRef.system_audio_capturing_

/-- The method `AudioCapture::StartMicrophoneCapture`. -/
def StartMicrophoneCapture (e : Engine) (deviceId : String) (callback : Option Nat) :
    StartResult :=
  StartCapture e false deviceId callback FlagRef.microphone_capturing_

/-- The method `AudioCapture::StopSystemAudioCapture` up to the point where it
either returns (`joining` is left as it was) or blocks in `join()`. -/
def StopSystemAudioCapture (e : Engine) : Engine :=
  if e.system_audio_capturing_ then
    let e1 := { e with should_stop_ := true }
    let e2 := { e1 with system_audio_capturing_ := false }
    if e2.system_audio_thread_.isSome then { e2 with joining := some true }
    else e2
  else e

/-- The method `AudioCapture::StopMicrophoneCapture` up to the point where it
either returns (`joining` is left as it was) or blocks in `join()`. -/
def StopMicrophoneCapture (e : Engine) : Engine :=
  if e.microphone_capturing_ then
    let e1 := { e with should_stop_ := true }
    let e2 := { e1 with microphone_capturing_ := false }
    if e2.microphone_thread_.isSome then { e2 with joining := some false }
    else e2
  else e

/-- The condition of the outer `while` of `CaptureThread`. -/
def loopCondition (e : Engine) (capturing_flag : FlagRef) : Bool :=
  e.load capturing_flag && !e.should_stop_

/-- The condition of the inner `while` of `CaptureThread`. -/
def innerCondition (hr : HRESULT) (packetLength : Nat) : Bool :=
  SUCCEEDED hr && decide (packetLength > 0)

/-- The operations of one iteration of the inner loop body before the closing
`GetNextPacketSize`, given what `GetBuffer` answered. -/
def deliver (callback : Option Nat) (b : Packet) : List Op :=
  if SUCCEEDED b.hr then
    let dataSize := b.frames
    (match callback with
      | some cb => if dataSize > 0 then [Op.callback cb dataSize] else []
      | none => []) ++ [Op.releaseBuffer b.frames]
  else []

/-- Things that happen to the engine: the four public calls, the completion of
a pending `join`, and the steps of the two workers with the answers of the
platform. -/
inductive Event
  | startSystem (deviceId : String) (callback : Option Nat)
  | startMicrophone (deviceId : String) (callback : Option Nat)
  | stopSystem
  | stopMicrophone
  /-- The `join()` of the blocked stop call returns and the call with it. -/
  | joined
  /-- Thread `t` runs the set-up part of `CaptureThread`. -/
  | setup (t : Bool) (p : SetupScript)
  /-- Thread `t` evaluates the outer loop condition; if it holds the thread
  calls `GetNextPacketSize`, answered by `ps`, otherwise it cleans up and returns. -/
  | poll (t : Bool) (ps : PacketSize)
  /-- Thread `t` finds the inner loop condition true and runs the body:
  `GetBuffer` answered by `b`, then `GetNextPacketSize` answered by `next`. -/
  | fetch (t : Bool) (b : Packet) (next : PacketSize)
  /-- Thread `t` finds the inner loop condition false and calls `Sleep(10)`. -/
  | idle (t : Bool)
deriving DecidableEq, Repr

/-- One step of the worker held by thread member `t`; `none` when the thread
cannot take this step. -/
def workerStep (e : Engine) (t : Bool) (w : Worker) : Event → Option Engine
  | Event.setup _ p =>
    match w.pc with
    | Pc.entry =>
      let r := captureSetup w.loopback w.deviceId p
      match r.2 with
      | none =>
        some (((e.emit t r.1).store w.capturing_flag false).setThread t
          (some { w with pc := Pc.returned }))
      | some pwfx =>
        some ((e.emit t r.1).setThread t (some { w with pc := Pc.loopHead, pwfx := some pwfx }))
    | _ => none
  | Event.poll _ ps =>
    match w.pc with
    | Pc.loopHead =>
      if loopCondition e w.capturing_flag then
        some (e.setThread t (some { w with pc := Pc.inner ps.hr ps.packetLength }))
      else
        some (((e.emit t (captureCleanup w.pwfx)).store w.capturing_flag false).setThread t
          (some { w with pc := Pc.returned }))
    | _ => none
  | Event.fetch _ b next =>
    match w.pc with
    | Pc.inner hr packetLength =>
      if innerCondition hr packetLength then
        some ((e.emit t (deliver w.callback b)).setThread t
          (some { w with pc := Pc.inner next.hr next.packetLength }))
      else none
    | _ => none
  | Event.idle _ =>
    match w.pc with
    | Pc.inner hr packetLength =>
      if innerCondition hr packetLength then none
      else some ((e.emit t [Op.sleep 10]).setThread t (some { w with pc := Pc.loopHead }))
    | _ => none
  | _ => none

/-- One step of the whole system; `none` when the event cannot happen in this
state.  After `std::terminate` nothing happens.  While a stop call is blocked
in `join()` it holds `capture_mutex_`, so no public call can run its body; the
workers keep running. -/
def step (e : Engine) (ev : Event) : Option Engine :=
  if e.terminated then none
  else
    match ev with
    | Event.startSystem deviceId callback =>
      if e.joining.isSome then none
      else some (StartSystemAudioCapture e deviceId callback).engine
    | Event.startMicrophone deviceId callback =>
      if e.joining.isSome then none
      else some (StartMicrophoneCapture e deviceId callback).engine
    | Event.stopSystem =>
      if e.joining.isSome then none else some (StopSystemAudioCapture e)
    | Event.stopMicrophone =>
      if e.joining.isSome then none else some (StopMicrophoneCapture e)
    | Event.joined =>
      match e.joining with
      | some t =>
        match e.thread t with
        | some w =>
          if w.pc = Pc.returned then some { e.setThread t none with joining := none }
          else none
        | none => none
      | none => none
    | Event.setup t _ | Event.poll t _ | Event.fetch t _ _ | Event.idle t =>
      match e.thread t with
      | some w => workerStep e t w ev
      | none => none

/-- Run a sequence of events; `none` as soon as one of them cannot happen. -/
def run (e : Engine) : List Event → Option Engine
  | [] => some e
  | ev :: rest =>
    match step e ev with
    | some e1 => run e1 rest
    | none => none

/-- The engine states that can arise from a freshly constructed engine. -/
def Reachable (e : Engine) : Prop := ∃ evs, run Engine.new evs = some e

/-! ## Observations on logs -/

/-- The callback invocations `(target, dataSize)` performed by thread `t`, in order. -/
def callbacksOf (t : Bool) (log : List (Bool × Op)) : List (Nat × Nat) :=
  log.filterMap fun x =>
    match x with
    | (s, Op.callback cb n) => if s = t then some (cb, n) else none
    | _ => none

/-- The formats passed to `Initialize`, in order. -/
def initializedWith (ops : List Op) : List WAVEFORMATEX :=
  ops.filterMap fun o =>
    match o with
    | Op.initClient _ fmt => some fmt
    | _ => none

/-- The resources handed out by the platform, in order. -/
def acquired (ops : List Op) : List Handle :=
  ops.filterMap fun o =>
    match o with
    | Op.acquire h => some h
    | _ => none

/-- The resources given back to the platform, in order. -/
def released (ops : List Op) : List Handle :=
  ops.filterMap fun o =>
    match o with
    | Op.release h => some h
    | _ => none

/-- The resources handed out and not given back, with multiplicity. -/
def leaked (ops : List Op) : List Handle :=
  (acquired ops).diff (released ops)

/-- Whether some operation of the list is a callback invocation. -/
def invokesCallback (ops : List Op) : Bool :=
  ops.any fun o =>
    match o with
    | Op.callback _ _ => true
    | _ => false

/-! ## Reference behaviour and sample inputs -/

/-- Whether `EnumerateDevices` reaches the `push_back` for an endpoint: the
item, its identifier and its property store were all obtained. -/
def listed (ep : Endpoint) : Bool :=
  !FAILED ep.itemHr && !FAILED ep.idHr && !FAILED ep.storeHr

/-- Whether the friendly name of an endpoint was read as a wide string. -/
def nameResolved (ep : Endpoint) : Bool :=
  SUCCEEDED ep.valueHr && ep.vt == VT_LPWSTR

/-- The descriptor expected for an endpoint. -/
def descriptorOf (input : Bool) (ep : Endpoint) : AudioDevice :=
  { id := ep.deviceId
    name := if nameResolved ep then ep.pwszVal else "Unknown Device"
    isInput := input }

/-- The out-parameter rules of COM that the accounting of resources relies on:
a failed endpoint lookup leaves `device` null, and `IsFormatSupported` stores
a block in `closestMatch` only together with `S_FALSE`. -/
def ComContract (p : SetupScript) : Prop :=
  (FAILED p.deviceHr = true → p.device = false) ∧
  (p.closestMatch.isSome = true → p.supportedHr = S_FALSE)

/-- Whether one of the six checked set-up calls reports failure. -/
def setupFails (p : SetupScript) : Bool :=
  (FAILED p.deviceHr || !p.device) || FAILED p.activateHr || FAILED p.mixHr ||
    FAILED p.initHr || FAILED p.serviceHr || FAILED p.startHr

/-- A render/capture device with a 48 kHz float mix format on which every call
succeeds and the fixed request is fully supported. -/
def okScript : SetupScript :=
  { deviceHr := S_OK, device := true, activateHr := S_OK, mixHr := S_OK
    mixFormat :=
      { wFormatTag := 65534, nChannels := 2, nSamplesPerSec := 48000,
        nAvgBytesPerSec := 384000, nBlockAlign := 8, wBitsPerSample := 32, cbSize := 22 }
    supportedHr := S_OK, closestMatch := none
    initHr := S_OK, serviceHr := S_OK, startHr := S_OK }

/-- The format 48000 Hz, 2 channels, 16 bit. -/
def format48k : WAVEFORMATEX :=
  { wFormatTag := WAVE_FORMAT_PCM, nChannels := 2, nSamplesPerSec := 48000,
    nAvgBytesPerSec := 192000, nBlockAlign := 4, wBitsPerSample := 16, cbSize := 0 }

/-- A capture device that supports only `format48k`: the request is answered
with `S_FALSE` and that format as closest match. -/
def only48kScript : SetupScript :=
  { okScript with mixFormat := format48k, supportedHr := S_FALSE, closestMatch := some format48k }

/-- A capture device whose format query fails outright. -/
def unsupportedScript : SetupScript :=
  { okScript with supportedHr := AUDCLNT_E_UNSUPPORTED_FORMAT }

/-- A device on which `Initialize` fails. -/
def initFailsScript : SetupScript :=
  { okScript with initHr := E_FAIL }

/-- Whether one of the three calls before the format negotiation (endpoint
lookup, `Activate`, `GetMixFormat`) reports failure. -/
def earlyFailure (p : SetupScript) : Bool :=
  (FAILED p.deviceHr || !p.device) || FAILED p.activateHr || FAILED p.mixHr

/-- Whether the negotiation leaves `pwfx` on the worker's own `desiredFormat`:
the microphone path with a format query that succeeds with a code other than
`S_FALSE`. -/
def adoptsRequest (loopback : Bool) (p : SetupScript) : Bool :=
  !loopback && (decide (p.supportedHr ≠ S_FALSE) && SUCCEEDED p.supportedHr)

/-- A capture device that supports only `format48k` and on which `Initialize` fails. -/
def initFails48kScript : SetupScript :=
  { only48kScript with initHr := E_FAIL }

/-- A platform without an endpoint: the lookup fails and leaves `device` null. -/
def noDeviceScript : SetupScript :=
  { okScript with deviceHr := E_FAIL, device := false }

/-- An endpoint whose identifier resolves but whose property store cannot be opened. -/
def storelessEndpoint : Endpoint :=
  { itemHr := S_OK, idHr := S_OK, deviceId := "mic-1", storeHr := E_FAIL,
    valueHr := S_OK, vt := VT_LPWSTR, pwszVal := "Microphone" }

/-- An endpoint whose property store opens but has no friendly name. -/
def namelessEndpoint : Endpoint :=
  { itemHr := S_OK, idHr := S_OK, deviceId := "mic-2", storeHr := S_OK,
    valueHr := E_FAIL, vt := 0, pwszVal := "" }

/-- Both sessions started on the default devices and through set-up. -/
def bothRunning : List Event :=
  [Event.startSystem "" (some 1), Event.startMicrophone "" (some 2),
   Event.setup true okScript, Event.setup false okScript]

/-- An engine whose two running flags are set. -/
def flagsSet : Engine :=
  { Engine.new with system_audio_capturing_ := true, microphone_capturing_ := true }

/-! ## A device queue of packets -/

/-- The packet length `GetNextPacketSize` reports for a queue of packets: the
frame count of the first one, or zero when the queue is empty. -/
def pending (bufs : List Packet) : Nat :=
  match bufs with
  | [] => 0
  | b :: _ => b.frames

/-- The worker steps that drain a queue of packets: each packet is handed out
by `GetBuffer` and the following `GetNextPacketSize` reports the next one. -/
def drainEvents (t : Bool) : List Packet → List Event
  | [] => []
  | b :: rest => Event.fetch t b ⟨S_OK, pending rest⟩ :: drainEvents t rest

/-- One iteration of the outer loop of thread `t` over a queue of packets:
the loop condition and `GetNextPacketSize`, the draining, the `Sleep`. -/
def passEvents (t : Bool) (bufs : List Packet) : List Event :=
  Event.poll t ⟨S_OK, pending bufs⟩ :: (drainEvents t bufs ++ [Event.idle t])

/-- Consecutive iterations of the outer loop of thread `t`, one queue each. -/
def sessionEvents (t : Bool) : List (List Packet) → List Event
  | [] => []
  | bufs :: rest => passEvents t bufs ++ sessionEvents t rest

/-- The operations of the inner loop over a list of packets. -/
def deliveries (callback : Option Nat) : List Packet → List Op
  | [] => []
  | b :: rest => deliver callback b ++ deliveries callback rest

/-- The callback invocations `(target, dataSize)` among a list of operations. -/
def callbacksIn (ops : List Op) : List (Nat × Nat) :=
  ops.filterMap fun o =>
    match o with
    | Op.callback cb n => some (cb, n)
    | _ => none

/-- Three packets of 120 frames; at a block alignment of 4 bytes per frame
each buffer holds 480 bytes. -/
def threePackets : List Packet :=
  [⟨S_OK, 120, 0⟩, ⟨S_OK, 120, AUDCLNT_BUFFERFLAGS_SILENT⟩, ⟨S_OK, 120, 0⟩]

/-- A microphone session on the default device that is handed `threePackets`
in one iteration of the outer loop. -/
def threePacketRun : List Event :=
  [Event.startMicrophone "" (some 2), Event.setup false okScript] ++ passEvents false threePackets

/-- The operations of consecutive iterations of the outer loop, one queue each. -/
def sessionOps (callback : Option Nat) : List (List Packet) → List Op
  | [] => []
  | bufs :: rest => (deliveries callback bufs ++ [Op.sleep 10]) ++ sessionOps callback rest

/-- The microphone worker of `threePacketRun` when it reaches the capture loop. -/
def micWorker : Worker :=
  { loopback := false, deviceId := "", callback := some 2,
    capturing_flag := FlagRef.microphone_capturing_, pc := Pc.loopHead,
    pwfx := some (Handle.desiredFormat, desiredFormat) }

/-- The engine of `threePacketRun` when the microphone worker reaches the capture loop. -/
def micReady : Engine :=
  ((run Engine.new [Event.startMicrophone "" (some 2), Event.setup false okScript]).getD
    Engine.new)

/-- The size in bytes of a buffer of `frames` frames in format `fmt`. -/
def bufferBytes (fmt : WAVEFORMATEX) (frames : Nat) : Nat :=
  frames * fmt.nBlockAlign

/-! ## Vocabulary for the life cycle of a session -/

/-- The running flag that belongs to thread `t`. -/
def flagOf (t : Bool) : FlagRef :=
  if t then FlagRef.system_audio_capturing_ else FlagRef.microphone_capturing_

/-- Thread `t` has no worker that can still run: the member is empty or its
`CaptureThread` has returned. -/
def workerExited (e : Engine) (t : Bool) : Bool :=
  match e.thread t with
  | none => true
  | some w => decide (w.pc = Pc.returned)

/-- Whether event `ev`, taken in state `e`, is the return of the stop call of
session `t`: a stop call that does not reach `join()`, or the completion of
the `join()` of a blocked one. -/
def stopReturns (t : Bool) (e : Engine) : Event → Bool
  | Event.stopSystem => t && (StopSystemAudioCapture e).joining.isNone
  | Event.stopMicrophone => !t && (StopMicrophoneCapture e).joining.isNone
  | Event.joined => decide (e.joining = some t)
  | _ => false

/-- Whether an event is a start call of session `t`. -/
def isStartOf (t : Bool) : Event → Bool
  | Event.startSystem _ _ => t
  | Event.startMicrophone _ _ => !t
  | _ => false

/-- What holds in every reachable state: a worker stores through the flag of
its own session; a worker that has not returned belongs to a session whose
flag is set or whose stop call is waiting for it; and the session of a
waiting stop call has its flag cleared. -/
structure Inv (e : Engine) : Prop where
  flag : ∀ t w, e.thread t = some w → w.capturing_flag = flagOf t
  alive : ∀ t w, e.thread t = some w → w.pc ≠ Pc.returned →
    e.isCapturing t = true ∨ e.joining = some t
  waiting : ∀ t, e.joining = some t → e.isCapturing t = false

/-- Session `t` is at rest: flag cleared, no worker that can run, no stop
call of this session waiting. -/
def Quiet (e : Engine) (t : Bool) : Prop :=
  e.isCapturing t = false ∧ workerExited e t = true ∧ e.joining ≠ some t

/-- Both sessions running, then `StopSystemAudioCapture` is called, the
system worker sees the signal, and the call returns from `join()`. -/
def stopSystemWhileBoth : List Event :=
  bothRunning ++ [Event.stopSystem, Event.poll true ⟨S_OK, 0⟩, Event.joined]

/-- Both sessions running, then `StopMicrophoneCapture` is called, the
microphone worker sees the signal, and the call returns from `join()`. -/
def stopMicrophoneWhileBoth : List Event :=
  bothRunning ++ [Event.stopMicrophone, Event.poll false ⟨S_OK, 0⟩, Event.joined]

/-- A microphone session that delivers `threePackets`, then
`StopMicrophoneCapture` is called and the worker sees the signal and returns;
the stop call is still waiting in `join()`. -/
def stopMicrophoneAfterDelivery : List Event :=
  threePacketRun ++ [Event.stopMicrophone, Event.poll false ⟨S_OK, 0⟩]

/-- The engine at the end of `stopMicrophoneAfterDelivery`. -/
def micStopping : Engine :=
  (run Engine.new stopMicrophoneAfterDelivery).getD Engine.new

/-- The engine once the `join()` of `micStopping` has returned. -/
def micStopped : Engine :=
  (step micStopping Event.joined).getD Engine.new

/-- A system audio session that runs after the microphone was stopped and
receives one packet. -/
def systemAfterwards : List Event :=
  [Event.stopMicrophone, Event.startSystem "" (some 1), Event.setup true okScript,
   Event.poll true ⟨S_OK, 5⟩, Event.fetch true ⟨S_OK, 5, 0⟩ ⟨S_OK, 0⟩, Event.idle true]

/-! ## Teardown -/

/-- The implicit destruction of the two `std::thread` members at the end of
`~AudioCapture`: destroying a thread that is still joinable calls
`std::terminate`. -/
def destroyThreads (e : Engine) : Engine :=
  if e.microphone_thread_.isSome || e.system_audio_thread_.isSome then
    { e with terminated := true }
  else e

/-- A stop call carried through to its return: when it blocks in `join()`,
the events `during` happen and then the `join()` completes. -/
def completeStop (e : Engine) (during : List Event) : Option Engine :=
  if e.joining.isSome then run e (during ++ [Event.joined]) else some e

/-- The destructor `AudioCapture::~AudioCapture`: `StopSystemAudioCapture()`,
`StopMicrophoneCapture()`, then the destruction of the members.  `during1`
and `during2` are the events that happen while the respective stop call
waits; `none` when one of them cannot happen. -/
def destroy (e : Engine) (during1 during2 : List Event) : Option Engine :=
  (completeStop (StopSystemAudioCapture e) during1).bind fun e1 =>
    (completeStop (StopMicrophoneCapture e1) during2).map destroyThreads

/-- A microphone start on a device whose `Initialize` fails: the call returns
`true`, the worker fails during set-up, clears the flag and returns. -/
def failedStart : List Event :=
  [Event.startMicrophone "" (some 2), Event.setup false initFailsScript]

/-- Both sessions running, system audio stopped, and the microphone worker
then leaves its loop on the shared signal. -/
def microphoneCancelledBySystemStop : List Event :=
  stopSystemWhileBoth ++ [Event.poll false ⟨S_OK, 0⟩]

/-! ## The transport encoding of `audio_capture_handler.cpp` -/

/-- A byte, the `uint8_t` of the source. -/
abbrev Byte := Fin 256

/-- The table `base64_chars` of `OnAudioData`. -/
def base64_chars : List Char :=
  "ABCDEFGHIJKLMNOPQRSTUVWXYZabcdefghijklmnopqrstuvwxyz0123456789+/".toList

/-- The number of values of `size_t` on the 64-bit target. -/
def SIZE_RANGE : Nat := 2 ^ 64

/-- The four characters one iteration of the loop of `OnAudioData` appends at
index `i`.  The octets are below 256, so the 32-bit `triple` cannot overflow;
the index sums are `size_t` sums. -/
def encodeStep (data : List Byte) (size i : Nat) : List Char :=
  let octet_a : Nat := if i < size then (data.getD i 0).val else 0
  let octet_b : Nat :=
    if (i + 1) % SIZE_RANGE < size then (data.getD ((i + 1) % SIZE_RANGE) 0).val else 0
  let octet_c : Nat :=
    if (i + 2) % SIZE_RANGE < size then (data.getD ((i + 2) % SIZE_RANGE) 0).val else 0
  let triple : Nat := (octet_a <<< 16) ||| (octet_b <<< 8) ||| octet_c
  [base64_chars.getD ((triple >>> 18) &&& 0x3F) 'A',
   base64_chars.getD ((triple >>> 12) &&& 0x3F) 'A',
   if (i + 1) % SIZE_RANGE < size then base64_chars.getD ((triple >>> 6) &&& 0x3F) 'A' else '=',
   if (i + 2) % SIZE_RANGE < size then base64_chars.getD (triple &&& 0x3F) 'A' else '=']

/-- The loop `for (size_t i = 0; i < size; i += 3)` of `OnAudioData`, from
index `i` with the text built so far; `none` when the fuel ends before the
loop does. -/
def encodeLoop (data : List Byte) (size : Nat) : Nat → Nat → List Char → Option (List Char)
  | 0, _, _ => none
  | fuel + 1, i, base64 =>
    if i < size then
      encodeLoop data size fuel ((i + 3) % SIZE_RANGE) (base64 ++ encodeStep data size i)
    else some base64

/-- The conversion `static_cast<int64_t>` of a `size_t`. -/
def toInt64 (n : Nat) : Int :=
  if n % SIZE_RANGE < 2 ^ 63 then ((n % SIZE_RANGE : Nat) : Int)
  else ((n % SIZE_RANGE : Nat) : Int) - 2 ^ 64

/-- The map `event_data` that `OnAudioData` passes to `InvokeMethod`. -/
structure EventData where
  type : String
  data : String
  size : Int
deriving DecidableEq, Repr

/-- The method `AudioCaptureHandler::OnAudioData` on the `size` bytes `data`
points to: the list of `onAudioData` invocations it makes, or `none` when the
loop does not end within the fuel. -/
def OnAudioData (method_channel_ engine_ : Bool) (data : List Byte) (isSystemAudio : Bool) :
    Option (List EventData) :=
  let size := data.length
  match encodeLoop data size (size + 1) 0 [] with
  | none => none
  | some base64 =>
    if method_channel_ && engine_ then
      some [{ type := if isSystemAudio then "system" else "microphone"
              data := String.mk base64
              size := toInt64 size }]
    else some []

/-! ## Standard base64 (RFC 4648, section 4) -/

/-- The base64 alphabet: value `k` below 64 as a character. -/
def alphabet (k : Nat) : Char :=
  if k < 26 then Char.ofNat (65 + k)
  else if k < 52 then Char.ofNat (97 + (k - 26))
  else if k < 62 then Char.ofNat (48 + (k - 52))
  else if k = 62 then '+'
  else '/'

/-- The value of a character of the base64 alphabet. -/
def sextet (c : Char) : Option Nat :=
  if 65 ≤ c.toNat ∧ c.toNat ≤ 90 then some (c.toNat - 65)
  else if 97 ≤ c.toNat ∧ c.toNat ≤ 122 then some (c.toNat - 97 + 26)
  else if 48 ≤ c.toNat ∧ c.toNat ≤ 57 then some (c.toNat - 48 + 52)
  else if c = '+' then some 62
  else if c = '/' then some 63
  else none

/-- Whether a character is one of `A-Z a-z 0-9 + /`. -/
def isBase64Char (c : Char) : Bool := (sextet c).isSome

/-- The standard padded base64 encoding: three bytes give four characters, a
final group of one or two bytes is padded with `=`. -/
def base64Encode : List Byte → List Char
  | [] => []
  | [a] => [alphabet (a.val / 4), alphabet (a.val % 4 * 16), '=', '=']
  | [a, b] =>
    [alphabet (a.val / 4), alphabet (a.val % 4 * 16 + b.val / 16),
     alphabet (b.val % 16 * 4), '=']
  | a :: b :: c :: rest =>
    alphabet (a.val / 4) :: alphabet (a.val % 4 * 16 + b.val / 16) ::
      alphabet (b.val % 16 * 4 + c.val / 64) :: alphabet (c.val % 64) :: base64Encode rest

/-- The standard base64 decoder: groups of four characters, padding only in
the last group; `none` for text that is not padded base64. -/
def base64Decode : List Char → Option (List Byte)
  | [] => some []
  | c1 :: c2 :: c3 :: c4 :: rest =>
    if c4 = '=' then
      if rest.isEmpty then
        if c3 = '=' then
          match sextet c1, sextet c2 with
          | some s1, some s2 => some [Fin.ofNat (s1 * 4 + s2 / 16)]
          | _, _ => none
        else
          match sextet c1, sextet c2, sextet c3 with
          | some s1, some s2, some s3 =>
            some [Fin.ofNat (s1 * 4 + s2 / 16), Fin.ofNat (s2 % 16 * 16 + s3 / 4)]
          | _, _, _ => none
      else none
    else
      match sextet c1, sextet c2, sextet c3, sextet c4, base64Decode rest with
      | some s1, some s2, some s3, some s4, some bytes =>
        some (Fin.ofNat (s1 * 4 + s2 / 16) :: Fin.ofNat (s2 % 16 * 16 + s3 / 4) ::
          Fin.ofNat (s3 % 4 * 64 + s4) :: bytes)
      | _, _, _, _, _ => none
  | _ => none

/-- The bytes of the text "Man" followed by the byte 255. -/
def sampleBytes : List Byte := [77, 97, 110, 255]

/-! ## Start and stop as functions of the engine state -/

/-- C2: when a session's running flag is true, the matching start call returns
`false` and the engine afterwards is the engine before, field for field: both
flags, the cancellation signal, both thread members (no worker is spawned) and
the log. -/
theorem double_start_rejected (e : Engine) (deviceId : String) (callback : Option Nat) :
    (e.system_audio_capturing_ = true →
      StartSystemAudioCapture e deviceId callback = { returned := some false, engine := e }) ∧
    (e.microphone_capturing_ = true →
      StartMicrophoneCapture e deviceId callback = { returned := some false, engine := e }) := by
  constructor
  · intro h
    simp [StartSystemAudioCapture, StartCapture, Engine.load, h]
  · intro h
    simp [StartMicrophoneCapture, StartCapture, Engine.load, h]

/-- Witness for C2 on an engine whose flags are both set. -/
theorem double_start_rejected_witness :
    StartSystemAudioCapture flagsSet "" (some 7) = { returned := some false, engine := flagsSet } ∧
    StartMicrophoneCapture flagsSet "" (some 7) = { returned := some false, engine := flagsSet } :=
  ⟨(double_start_rejected flagsSet "" (some 7)).1 rfl,
   (double_start_rejected flagsSet "" (some 7)).2 rfl⟩

/-- C9: when a session's running flag is false, the matching stop call leaves
the engine exactly as it was (in particular `should_stop_`, the other flag and
`joining`: the call does not enter `join()`), and as an event it is a step
from the state to itself whenever no other call is in progress. -/
theorem stop_idle_noop (e : Engine) :
    (e.system_audio_capturing_ = false →
      StopSystemAudioCapture e = e ∧
      (e.terminated = false → e.joining = none → step e Event.stopSystem = some e)) ∧
    (e.microphone_capturing_ = false →
      StopMicrophoneCapture e = e ∧
      (e.terminated = false → e.joining = none → step e Event.stopMicrophone = some e)) := by
  constructor
  · intro h
    have h1 : StopSystemAudioCapture e = e := by simp [StopSystemAudioCapture, h]
    refine ⟨h1, fun ht hj => ?_⟩
    simp [step, ht, hj, h1]
  · intro h
    have h1 : StopMicrophoneCapture e = e := by simp [StopMicrophoneCapture, h]
    refine ⟨h1, fun ht hj => ?_⟩
    simp [step, ht, hj, h1]

/-- Witness for C9 on a freshly constructed engine. -/
theorem stop_idle_noop_witness :
    StopSystemAudioCapture Engine.new = Engine.new ∧
    StopMicrophoneCapture Engine.new = Engine.new :=
  ⟨((stop_idle_noop Engine.new).1 rfl).1, ((stop_idle_noop Engine.new).2 rfl).1⟩

/-! ## Format negotiation -/

/-- The set-up code up to the format negotiation, when the device, the audio
client and the mix format were obtained: the operations so far, the
negotiation, and the `Initialize` call with the negotiated format. -/
theorem captureSetup_initializedWith (loopback : Bool) (deviceId : String) (p : SetupScript)
    (hdev : FAILED p.deviceHr = false) (hd : p.device = true)
    (hact : FAILED p.activateHr = false) (hmix : FAILED p.mixHr = false) :
    initializedWith (captureSetup loopback deviceId p).1 = [(negotiate loopback p).2.2] := by
  have hneg : initializedWith (negotiate loopback p).1 = [] := by
    unfold negotiate
    cases loopback <;> cases hc : p.closestMatch <;> simp [initializedWith] <;>
      split_ifs <;> simp
  unfold initializedWith at hneg ⊢
  unfold captureSetup
  cases deviceId.isEmpty <;> cases FAILED p.initHr <;> cases FAILED p.serviceHr <;>
    cases FAILED p.startHr <;>
    simp [hdev, hd, hact, hmix, List.filterMap_append, List.filterMap_cons, hneg]

/-- C6: once the device, the audio client and the mix format are obtained,
`Initialize` is called exactly once, and the format it receives is (i) on the
loopback path the mix format of the device, whatever the fixed request;
(ii) on the microphone path the fixed request 44100 Hz, 2 channels, 16 bit
when `IsFormatSupported` answers `S_OK`; (iii) on the microphone path the
closest match stored by the platform when it answers `S_FALSE`. -/
theorem negotiated_format (deviceId : String) (p : SetupScript)
    (hdev : FAILED p.deviceHr = false) (hd : p.device = true)
    (hact : FAILED p.activateHr = false) (hmix : FAILED p.mixHr = false) :
    initializedWith (captureSetup true deviceId p).1 = [p.mixFormat] ∧
    (p.supportedHr = S_OK →
      initializedWith (captureSetup false deviceId p).1 = [desiredFormat] ∧
      desiredFormat.nSamplesPerSec = 44100 ∧ desiredFormat.nChannels = 2 ∧
      desiredFormat.wBitsPerSample = 16) ∧
    (∀ c, p.supportedHr = S_FALSE → p.closestMatch = some c →
      initializedWith (captureSetup false deviceId p).1 = [c]) := by
  refine ⟨?_, ?_, ?_⟩
  · rw [captureSetup_initializedWith true deviceId p hdev hd hact hmix]
    simp [negotiate]
  · intro hs
    rw [captureSetup_initializedWith false deviceId p hdev hd hact hmix]
    refine ⟨?_, rfl, rfl, rfl⟩
    simp [negotiate, hs, S_OK, S_FALSE, SUCCEEDED]
  · intro c hs hc
    rw [captureSetup_initializedWith false deviceId p hdev hd hact hmix]
    simp [negotiate, hs, hc]

/-- Witness for C6: a capture device that supports only 48000 Hz, 2 channels,
16 bit is initialised with exactly that format, and the same device opened
for loopback with its mix format. -/
theorem negotiated_format_witness :
    initializedWith (captureSetup false "" only48kScript).1 = [format48k] ∧
    initializedWith (captureSetup true "" only48kScript).1 = [only48kScript.mixFormat] :=
  ⟨(negotiated_format "" only48kScript rfl rfl rfl rfl).2.2 format48k rfl rfl,
   (negotiated_format "" only48kScript rfl rfl rfl rfl).1⟩

/-- C7, as stated, fails: on a capture device whose format query returns
`AUDCLNT_E_UNSUPPORTED_FORMAT` the worker still calls `Initialize` (with the
mix format), enters the capture loop with the running flag true, and invokes
the callback for the first buffer. -/
theorem negotiation_failure_does_not_abort :
    FAILED unsupportedScript.supportedHr = true ∧
    initializedWith (captureSetup false "" unsupportedScript).1 =
      [unsupportedScript.mixFormat] ∧
    (run Engine.new
        [Event.startMicrophone "" (some 2), Event.setup false unsupportedScript,
         Event.poll false ⟨S_OK, 120⟩, Event.fetch false ⟨S_OK, 120, 0⟩ ⟨S_OK, 0⟩]).map
      (fun e => (e.microphone_capturing_, callbacksOf false e.log)) =
      some (true, [(2, 120)]) := by
  refine ⟨by decide, by decide, by decide⟩

/-- C7 amended: on the microphone path, when the format query fails, the
worker keeps the mix format of the device, calls `Initialize` with it, and
leaves through a failure exit exactly when `Initialize`, `GetService` or
`Start` fails; otherwise it enters the capture loop with the mix format. -/
theorem negotiation_failure_falls_back (deviceId : String) (p : SetupScript)
    (hdev : FAILED p.deviceHr = false) (hd : p.device = true)
    (hact : FAILED p.activateHr = false) (hmix : FAILED p.mixHr = false)
    (hsup : FAILED p.supportedHr = true) :
    (negotiate false p).2 = (Handle.mixFormat, p.mixFormat) ∧
    initializedWith (captureSetup false deviceId p).1 = [p.mixFormat] ∧
    ((captureSetup false deviceId p).2 = none ↔
      (FAILED p.initHr = true ∨ FAILED p.serviceHr = true ∨ FAILED p.startHr = true)) ∧
    ((captureSetup false deviceId p).2 ≠ none →
      (captureSetup false deviceId p).2 = some (Handle.mixFormat, p.mixFormat)) := by
  have hlt : p.supportedHr < 0 := by simpa [FAILED] using hsup
  have hneg : (negotiate false p).2 = (Handle.mixFormat, p.mixFormat) := by
    have h1 : p.supportedHr ≠ S_FALSE := by
      intro h
      rw [h] at hlt
      simp [S_FALSE] at hlt
    have h2 : SUCCEEDED p.supportedHr = false := by
      simp [SUCCEEDED, hlt]
    simp [negotiate, h1, h2]
  refine ⟨hneg, ?_, ?_, ?_⟩
  · rw [captureSetup_initializedWith false deviceId p hdev hd hact hmix, hneg]
  · unfold captureSetup
    simp only [hdev, hd, hact, hmix]
    cases h1 : FAILED p.initHr <;> cases h2 : FAILED p.serviceHr <;>
      cases h3 : FAILED p.startHr <;> simp
  · unfold captureSetup
    simp only [hdev, hd, hact, hmix]
    cases h1 : FAILED p.initHr <;> cases h2 : FAILED p.serviceHr <;>
      cases h3 : FAILED p.startHr <;> simp [hneg]

/-- Witness for the amended C7 on a device whose format query fails. -/
theorem negotiation_failure_falls_back_witness :
    (captureSetup false "" unsupportedScript).2 =
      some (Handle.mixFormat, unsupportedScript.mixFormat) :=
  (negotiation_failure_falls_back "" unsupportedScript rfl rfl rfl rfl (by decide)).2.2.2
    (by decide)

/-! ## Device enumeration -/

/-- The loop of `EnumerateDevices` appends, in collection order, one
descriptor for every endpoint whose item, identifier and property store were
obtained, and nothing else. -/
theorem enumerateLoop_eq (input : Bool) (collection : List Endpoint) (devices : List AudioDevice) :
    enumerateLoop input collection devices =
      devices ++ (collection.filter listed).map (descriptorOf input) := by
  induction collection generalizing devices with
  | nil => simp [enumerateLoop]
  | cons ep rest ih =>
    unfold enumerateLoop
    cases h1 : FAILED ep.itemHr <;> cases h2 : FAILED ep.idHr <;>
      cases h3 : FAILED ep.storeHr <;>
      simp [ih, listed, h1, h2, h3, descriptorOf, nameResolved]

/-- C8, as stated, fails: an endpoint whose identifier resolves but whose
property store cannot be opened gets no descriptor at all, instead of one
named "Unknown Device". -/
theorem storeless_endpoint_suppressed :
    SUCCEEDED storelessEndpoint.itemHr = true ∧ SUCCEEDED storelessEndpoint.idHr = true ∧
    EnumerateDevices true S_OK [storelessEndpoint] true [] = (true, []) := by
  refine ⟨by decide, by decide, by decide⟩

/-- C8 amended: with an enumerator and a successful `EnumAudioEndpoints`,
`EnumerateDevices` returns `true` and appends, in platform order, exactly one
descriptor for every endpoint whose item, identifier and property store were
all obtained; its identifier is the endpoint identifier and its name is the
friendly name when `GetValue` succeeds with a wide string and
"Unknown Device" otherwise. -/
theorem enumerate_lists_resolved (enumHr : HRESULT) (collection : List Endpoint)
    (input : Bool) (devices : List AudioDevice) (h : FAILED enumHr = false) :
    EnumerateDevices true enumHr collection input devices =
      (true, devices ++ (collection.filter listed).map (descriptorOf input)) ∧
    (∀ ep, ep ∈ collection → listed ep = true →
      descriptorOf input ep ∈ (EnumerateDevices true enumHr collection input devices).2 ∧
      (descriptorOf input ep).id = ep.deviceId ∧
      (nameResolved ep = false → (descriptorOf input ep).name = "Unknown Device") ∧
      (nameResolved ep = true → (descriptorOf input ep).name = ep.pwszVal)) := by
  have heq : EnumerateDevices true enumHr collection input devices =
      (true, devices ++ (collection.filter listed).map (descriptorOf input)) := by
    simp [EnumerateDevices, h, enumerateLoop_eq]
  refine ⟨heq, fun ep hmem hl => ⟨?_, rfl, ?_, ?_⟩⟩
  · rw [heq]
    simp only [List.mem_append, List.mem_map, List.mem_filter]
    exact Or.inr ⟨ep, ⟨hmem, hl⟩, rfl⟩
  · intro hn
    simp [descriptorOf, hn]
  · intro hn
    simp [descriptorOf, hn]

/-- Witness for the amended C8: an endpoint without a friendly name, listed
after one whose property store does not open. -/
theorem enumerate_lists_resolved_witness :
    EnumerateDevices true S_OK [storelessEndpoint, namelessEndpoint] true [] =
      (true, [{ id := "mic-2", name := "Unknown Device", isInput := true }]) :=
  (enumerate_lists_resolved S_OK [storelessEndpoint, namelessEndpoint] true [] (by decide)).1

/-! ## Resource accounting on the failure exits -/

theorem acquired_append (a b : List Op) : acquired (a ++ b) = acquired a ++ acquired b := by
  simp [acquired, List.filterMap_append]

theorem released_append (a b : List Op) : released (a ++ b) = released a ++ released b := by
  simp [released, List.filterMap_append]

theorem invokesCallback_append (a b : List Op) :
    invokesCallback (a ++ b) = (invokesCallback a || invokesCallback b) := by
  simp [invokesCallback, List.any_append]

/-- Under the COM out-parameter rules the negotiation has one of three
effects: none (`pwfx` stays on the mix format), the mix format is freed and
`pwfx` moves to the closest match, or the mix format is freed and `pwfx`
moves to the stack-resident request. -/
theorem negotiate_shape (loopback : Bool) (p : SetupScript) (hc : ComContract p) :
    invokesCallback (negotiate loopback p).1 = false ∧
    ((acquired (negotiate loopback p).1 = [] ∧ released (negotiate loopback p).1 = [] ∧
        (negotiate loopback p).2.1 = Handle.mixFormat) ∨
     (acquired (negotiate loopback p).1 = [Handle.closestMatch] ∧
        released (negotiate loopback p).1 = [Handle.mixFormat] ∧
        (negotiate loopback p).2.1 = Handle.closestMatch) ∨
     (acquired (negotiate loopback p).1 = [] ∧
        released (negotiate loopback p).1 = [Handle.mixFormat] ∧
        (negotiate loopback p).2.1 = Handle.desiredFormat)) := by
  obtain ⟨_, h2⟩ := hc
  cases loopback
  · cases hcm : p.closestMatch with
    | none =>
      by_cases hs : p.supportedHr = S_FALSE
      · simp [negotiate, hcm, hs, acquired, released, invokesCallback]
      · cases hss : SUCCEEDED p.supportedHr <;>
          simp [negotiate, hcm, hs, hss, acquired, released, invokesCallback]
    | some c =>
      have hs : p.supportedHr = S_FALSE := h2 (by simp [hcm])
      simp [negotiate, hcm, hs, acquired, released, invokesCallback]
  · simp [negotiate, acquired, released, invokesCallback]


@[simp] theorem acquired_nil : acquired [] = [] := rfl

@[simp] theorem released_nil : released [] = [] := rfl

@[simp] theorem invokesCallback_nil : invokesCallback [] = false := rfl

@[simp] theorem acquired_cons (o : Op) (t : List Op) :
    acquired (o :: t) = (match o with | Op.acquire h => [h] | _ => []) ++ acquired t := by
  cases o <;> simp [acquired]

@[simp] theorem released_cons (o : Op) (t : List Op) :
    released (o :: t) = (match o with | Op.release h => [h] | _ => []) ++ released t := by
  cases o <;> simp [released]

@[simp] theorem invokesCallback_cons (o : Op) (t : List Op) :
    invokesCallback (o :: t) =
      ((match o with | Op.callback _ _ => true | _ => false) || invokesCallback t) := by
  cases o <;> simp [invokesCallback]

/-- The negotiation leaves `pwfx` on `desiredFormat` only when the request is adopted. -/
theorem negotiate_desiredFormat (loopback : Bool) (p : SetupScript)
    (h : (negotiate loopback p).2.1 = Handle.desiredFormat) :
    adoptsRequest loopback p = true := by
  unfold negotiate at h
  cases loopback
  · by_cases hs : p.supportedHr = S_FALSE
    · cases hcm : p.closestMatch <;> simp [hs, hcm] at h
    · cases hss : SUCCEEDED p.supportedHr
      · simp [hs, hss] at h
      · simp [adoptsRequest, hs, hss]
  · simp at h

/-- When the request is not adopted the negotiation either changes nothing or
frees the mix format and moves `pwfx` to the closest match. -/
theorem negotiate_shape_own (loopback : Bool) (p : SetupScript) (hc : ComContract p)
    (hown : adoptsRequest loopback p = false) :
    invokesCallback (negotiate loopback p).1 = false ∧
    ((acquired (negotiate loopback p).1 = [] ∧ released (negotiate loopback p).1 = [] ∧
        (negotiate loopback p).2.1 = Handle.mixFormat) ∨
     (acquired (negotiate loopback p).1 = [Handle.closestMatch] ∧
        released (negotiate loopback p).1 = [Handle.mixFormat] ∧
        (negotiate loopback p).2.1 = Handle.closestMatch)) := by
  obtain ⟨hcb, hshape⟩ := negotiate_shape loopback p hc
  refine ⟨hcb, ?_⟩
  rcases hshape with h | h | h
  · exact Or.inl h
  · exact Or.inr h
  · have := negotiate_desiredFormat loopback p h.2.2
    rw [hown] at this
    exact absurd this (by decide)

/-- The failure exits of the set-up on the paths that do not free the
worker's own request block: the exit is taken, the resources given back are
exactly the resources handed out, and no callback is invoked. -/
theorem captureSetup_clean_exit (loopback : Bool) (deviceId : String) (p : SetupScript)
    (hc : ComContract p) (hf : setupFails p = true)
    (hown : earlyFailure p = true ∨ adoptsRequest loopback p = false) :
    (captureSetup loopback deviceId p).2 = none ∧
    leaked (captureSetup loopback deviceId p).1 = [] ∧
    (∀ h, (released (captureSetup loopback deviceId p).1).count h =
        (acquired (captureSetup loopback deviceId p).1).count h) ∧
    invokesCallback (captureSetup loopback deviceId p).1 = false := by
  have hdev := hc.1
  unfold setupFails at hf
  unfold captureSetup
  cases hE : deviceId.isEmpty <;>
  (cases hD : p.device
   · simp only [hD, Bool.not_false, Bool.or_true, if_true]
     refine ⟨trivial, ?_, fun h => ?_, ?_⟩
     · simp [leaked]
     · cases h <;> simp
     · simp
   · cases b1 : FAILED p.deviceHr
     · cases b2 : FAILED p.activateHr
       · cases b3 : FAILED p.mixHr
         · cases b4 : FAILED p.initHr
           · cases b5 : FAILED p.serviceHr
             · cases b6 : FAILED p.startHr
               · simp [hD, b1, b2, b3, b4, b5, b6] at hf
               · have hown2 : adoptsRequest loopback p = false := by
                   rcases hown with h | h
                   · simp [earlyFailure, hD, b1, b2, b3] at h
                   · exact h
                 obtain ⟨hcb, hshape⟩ := negotiate_shape_own loopback p hc hown2
                 simp only [hD, b1, b2, b3, b4, b5, b6, Bool.not_true, Bool.or_false,
                   Bool.false_eq_true, if_false, if_true]
                 rcases hshape with ⟨ha, hr, hh⟩ | ⟨ha, hr, hh⟩ <;>
                 (simp only [acquired_append, released_append, invokesCallback_append]
                  refine ⟨trivial, ?_, fun h => ?_, ?_⟩
                  · simp [leaked, acquired_append, released_append, invokesCallback_append, ha, hr, hh]
                  · cases h <;> simp [ha, hr, hh, acquired_append, released_append, invokesCallback_append]
                  · simp [hcb, acquired_append, released_append, invokesCallback_append])
             · have hown2 : adoptsRequest loopback p = false := by
                 rcases hown with h | h
                 · simp [earlyFailure, hD, b1, b2, b3] at h
                 · exact h
               obtain ⟨hcb, hshape⟩ := negotiate_shape_own loopback p hc hown2
               simp only [hD, b1, b2, b3, b4, b5, Bool.not_true, Bool.or_false,
                 Bool.false_eq_true, if_false, if_true]
               rcases hshape with ⟨ha, hr, hh⟩ | ⟨ha, hr, hh⟩ <;>
               (simp only [acquired_append, released_append, invokesCallback_append]
                refine ⟨trivial, ?_, fun h => ?_, ?_⟩
                · simp [leaked, acquired_append, released_append, invokesCallback_append, ha, hr, hh]
                · cases h <;> simp [ha, hr, hh, acquired_append, released_append, invokesCallback_append]
                · simp [hcb, acquired_append, released_append, invokesCallback_append])
           · have hown2 : adoptsRequest loopback p = false := by
               rcases hown with h | h
               · simp [earlyFailure, hD, b1, b2, b3] at h
               · exact h
             obtain ⟨hcb, hshape⟩ := negotiate_shape_own loopback p hc hown2
             simp only [hD, b1, b2, b3, b4, Bool.not_true, Bool.or_false,
               Bool.false_eq_true, if_false, if_true]
             rcases hshape with ⟨ha, hr, hh⟩ | ⟨ha, hr, hh⟩ <;>
             (simp only [acquired_append, released_append, invokesCallback_append]
              refine ⟨trivial, ?_, fun h => ?_, ?_⟩
              · simp [leaked, acquired_append, released_append, invokesCallback_append, ha, hr, hh]
              · cases h <;> simp [ha, hr, hh, acquired_append, released_append, invokesCallback_append]
              · simp [hcb, acquired_append, released_append, invokesCallback_append])
         · simp only [hD, b1, b2, b3, Bool.not_true, Bool.or_false,
             Bool.false_eq_true, if_false, if_true]
           simp only [acquired_append, released_append, invokesCallback_append]
           refine ⟨trivial, ?_, fun h => ?_, ?_⟩
           · simp [leaked]
           · cases h <;> simp
           · simp
       · simp only [hD, b1, b2, Bool.not_true, Bool.or_false,
           Bool.false_eq_true, if_false, if_true]
         simp only [acquired_append, released_append, invokesCallback_append]
         refine ⟨trivial, ?_, fun h => ?_, ?_⟩
         · simp [leaked]
         · cases h <;> simp
         · simp
     · exact absurd (hdev b1) (by simp [hD]))

/-! ## Basic facts about the engine record -/

@[simp] theorem load_setThread (e : Engine) (t : Bool) (w : Option Worker) (r : FlagRef) :
    (e.setThread t w).load r = e.load r := by
  cases t <;> cases r <;> rfl

@[simp] theorem load_emit (e : Engine) (t : Bool) (ops : List Op) (r : FlagRef) :
    (e.emit t ops).load r = e.load r := by
  cases r <;> rfl

@[simp] theorem load_store_same (e : Engine) (r : FlagRef) (v : Bool) :
    (e.store r v).load r = v := by
  cases r <;> rfl

@[simp] theorem thread_setThread_same (e : Engine) (t : Bool) (w : Option Worker) :
    (e.setThread t w).thread t = w := by
  cases t <;> rfl

@[simp] theorem thread_setThread_other (e : Engine) (t : Bool) (w : Option Worker) :
    (e.setThread t w).thread (!t) = e.thread (!t) := by
  cases t <;> rfl

@[simp] theorem thread_store (e : Engine) (r : FlagRef) (v : Bool) (t : Bool) :
    (e.store r v).thread t = e.thread t := by
  cases r <;> rfl

@[simp] theorem thread_emit (e : Engine) (s : Bool) (ops : List Op) (t : Bool) :
    (e.emit s ops).thread t = e.thread t := rfl

@[simp] theorem log_setThread (e : Engine) (t : Bool) (w : Option Worker) :
    (e.setThread t w).log = e.log := by
  cases t <;> rfl

@[simp] theorem log_store (e : Engine) (r : FlagRef) (v : Bool) :
    (e.store r v).log = e.log := by
  cases r <;> rfl

@[simp] theorem log_emit (e : Engine) (t : Bool) (ops : List Op) :
    (e.emit t ops).log = e.log ++ ops.map (fun o => (t, o)) := rfl

/-- C10, as stated, fails: the format negotiation can fail without the worker
leaving.  On a capture device whose format query returns
`AUDCLNT_E_UNSUPPORTED_FORMAT`, with every other call succeeding, the set-up
takes no exit: it ends in the capture loop holding the device, the audio
client, the mix format block and the capture client, the running flag stays
true and the worker has not returned. -/
theorem failed_format_query_takes_no_exit :
    FAILED unsupportedScript.supportedHr = true ∧
    setupFails unsupportedScript = false ∧
    (captureSetup false "" unsupportedScript).2 =
      some (Handle.mixFormat, unsupportedScript.mixFormat) ∧
    leaked (captureSetup false "" unsupportedScript).1 =
      [Handle.device, Handle.audioClient, Handle.mixFormat, Handle.captureClient] ∧
    (run Engine.new
        [Event.startMicrophone "" (some 2), Event.setup false unsupportedScript]).map
      (fun e => (e.microphone_capturing_, workerExited e false)) = some (true, false) := by
  refine ⟨by decide, by decide, by decide, by decide, by decide⟩

/-- What the amended C10 leaves out: on the microphone path with the request
adopted, the exit after a failed `Initialize` passes the worker's own
`desiredFormat`, a block the platform never handed out, to `CoTaskMemFree`. -/
theorem request_block_freed_on_exit :
    adoptsRequest false initFailsScript = true ∧
    Handle.desiredFormat ∈ released (captureSetup false "" initFailsScript).1 ∧
    Handle.desiredFormat ∉ acquired (captureSetup false "" initFailsScript).1 := by
  refine ⟨by decide, by decide, by decide⟩

/-- C10 amended: whenever one of the six checked set-up calls (endpoint
lookup, `Activate`, `GetMixFormat`, `Initialize`, `GetService`, `Start`)
fails, for every outcome of the calls before it and of the format query that
follows the COM out-parameter rules and does not leave `pwfx` on the worker's
own request block (always so when one of the first three calls fails), the
set-up leaves through a failure exit; on that exit the resources given back
are exactly the resources the platform handed out, each once (nothing leaked,
nothing else freed), no callback was invoked, and the worker step in the
engine stores `false` in the running flag of the session and returns. -/
theorem checked_failure_exit_releases (loopback : Bool) (deviceId : String) (p : SetupScript)
    (hc : ComContract p) (hf : setupFails p = true)
    (hown : earlyFailure p = true ∨ adoptsRequest loopback p = false) :
    (captureSetup loopback deviceId p).2 = none ∧
    leaked (captureSetup loopback deviceId p).1 = [] ∧
    List.Perm (released (captureSetup loopback deviceId p).1)
      (acquired (captureSetup loopback deviceId p).1) ∧
    invokesCallback (captureSetup loopback deviceId p).1 = false ∧
    (∀ (e : Engine) (t : Bool) (w : Worker),
      e.terminated = false → e.thread t = some w → w.pc = Pc.entry →
      w.loopback = loopback → w.deviceId = deviceId →
      ∃ e1, step e (Event.setup t p) = some e1 ∧
        e1.load w.capturing_flag = false ∧
        e1.thread t = some { w with pc := Pc.returned } ∧
        e1.log = e.log ++ (captureSetup loopback deviceId p).1.map (fun o => (t, o))) := by
  obtain ⟨h1, h2, h3, h4⟩ := captureSetup_clean_exit loopback deviceId p hc hf hown
  refine ⟨h1, h2, List.perm_iff_count.mpr h3, h4, ?_⟩
  intro e t w hterm hth hpc hl hd
  subst hl hd
  refine ⟨((e.emit t (captureSetup w.loopback w.deviceId p).1).store w.capturing_flag
    false).setThread t (some { w with pc := Pc.returned }), ?_, by simp, by simp, by simp⟩
  simp [step, hterm, hth, workerStep, hpc, h1]

/-- Witness for the amended C10: `Initialize` fails on the microphone path
after the closest match replaced the mix format. -/
theorem checked_failure_exit_releases_witness :
    (captureSetup false "" initFails48kScript).2 = none ∧
    leaked (captureSetup false "" initFails48kScript).1 = [] ∧
    List.Perm (released (captureSetup false "" initFails48kScript).1)
      (acquired (captureSetup false "" initFails48kScript).1) ∧
    invokesCallback (captureSetup false "" initFails48kScript).1 = false :=
  have h := checked_failure_exit_releases false "" initFails48kScript
    ⟨fun h => absurd h (by decide), fun _ => rfl⟩ (by decide) (Or.inr (by decide))
  ⟨h.1, h.2.1, h.2.2.1, h.2.2.2.1⟩

@[simp] theorem emit_nil (e : Engine) (t : Bool) : e.emit t [] = e := by
  simp [Engine.emit]

theorem emit_emit (e : Engine) (t : Bool) (a b : List Op) :
    (e.emit t a).emit t b = e.emit t (a ++ b) := by
  simp [Engine.emit, List.append_assoc]

theorem setThread_self (e : Engine) (t : Bool) (w : Worker) (h : e.thread t = some w) :
    e.setThread t (some w) = e := by
  cases t <;> simp [Engine.thread] at h <;> simp [Engine.setThread, ← h]

@[simp] theorem setThread_setThread (e : Engine) (t : Bool) (a b : Option Worker) :
    (e.setThread t a).setThread t b = e.setThread t b := by
  cases t <;> rfl

theorem setThread_emit (e : Engine) (t s : Bool) (a : Option Worker) (ops : List Op) :
    (e.setThread t a).emit s ops = (e.emit s ops).setThread t a := by
  cases t <;> rfl

@[simp] theorem terminated_setThread (e : Engine) (t : Bool) (w : Option Worker) :
    (e.setThread t w).terminated = e.terminated := by
  cases t <;> rfl

@[simp] theorem terminated_emit (e : Engine) (t : Bool) (ops : List Op) :
    (e.emit t ops).terminated = e.terminated := rfl

@[simp] theorem terminated_store (e : Engine) (r : FlagRef) (v : Bool) :
    (e.store r v).terminated = e.terminated := by
  cases r <;> rfl

@[simp] theorem should_stop_setThread (e : Engine) (t : Bool) (w : Option Worker) :
    (e.setThread t w).should_stop_ = e.should_stop_ := by
  cases t <;> rfl

@[simp] theorem should_stop_emit (e : Engine) (t : Bool) (ops : List Op) :
    (e.emit t ops).should_stop_ = e.should_stop_ := rfl

@[simp] theorem loopCondition_setThread (e : Engine) (t : Bool) (w : Option Worker) (r : FlagRef) :
    loopCondition (e.setThread t w) r = loopCondition e r := by
  simp [loopCondition]

@[simp] theorem loopCondition_emit (e : Engine) (t : Bool) (ops : List Op) (r : FlagRef) :
    loopCondition (e.emit t ops) r = loopCondition e r := by
  simp [loopCondition]

theorem callbacksOf_append (t : Bool) (a b : List (Bool × Op)) :
    callbacksOf t (a ++ b) = callbacksOf t a ++ callbacksOf t b := by
  simp [callbacksOf, List.filterMap_append]

theorem callbacksOf_same (t : Bool) (ops : List Op) :
    callbacksOf t (ops.map (fun o => (t, o))) = callbacksIn ops := by
  induction ops with
  | nil => rfl
  | cons o rest ih =>
    cases t <;> cases o <;> first | exact ih | exact congrArg (List.cons _) ih

theorem callbacksOf_other (t : Bool) (ops : List Op) :
    callbacksOf t (ops.map (fun o => (!t, o))) = [] := by
  induction ops with
  | nil => rfl
  | cons o rest ih =>
    cases t <;> cases o <;> exact ih

theorem callbacksIn_append (a b : List Op) :
    callbacksIn (a ++ b) = callbacksIn a ++ callbacksIn b := by
  simp [callbacksIn, List.filterMap_append]

/-- The callback invocations of the inner loop over successfully fetched,
non-empty packets: one per packet, in order, with the frame count stored by
`GetBuffer` as length, whatever the buffer flags. -/
theorem callbacksIn_deliveries (cb : Nat) (bufs : List Packet)
    (hok : ∀ b ∈ bufs, SUCCEEDED b.hr = true ∧ 0 < b.frames) :
    callbacksIn (deliveries (some cb) bufs) = bufs.map (fun b => (cb, b.frames)) := by
  induction bufs with
  | nil => rfl
  | cons b rest ih =>
    have hb := hok b (List.mem_cons_self _ _)
    have hrest := ih (fun x hx => hok x (List.mem_cons_of_mem _ hx))
    have hd : callbacksIn (deliver (some cb) b) = [(cb, b.frames)] := by
      simp [deliver, hb.1, hb.2, callbacksIn]
    simp [deliveries, callbacksIn_append, hrest, hd]

/-- The step of the inner loop body. -/
theorem step_fetch (e : Engine) (t : Bool) (w : Worker) (hr : HRESULT) (n : Nat)
    (b : Packet) (next : PacketSize) (hterm : e.terminated = false)
    (hth : e.thread t = some w) (hpc : w.pc = Pc.inner hr n) (hc : innerCondition hr n = true) :
    step e (Event.fetch t b next) =
      some ((e.emit t (deliver w.callback b)).setThread t
        (some { w with pc := Pc.inner next.hr next.packetLength })) := by
  simp [step, hterm, hth, workerStep, hpc, hc]

/-- Draining a queue of non-empty packets: every step is enabled, the inner
loop body runs once per packet, and the worker ends with an empty queue. -/
theorem run_drainEvents (t : Bool) (bufs : List Packet) (e : Engine) (w : Worker)
    (hterm : e.terminated = false) (hth : e.thread t = some w)
    (hpc : w.pc = Pc.inner S_OK (pending bufs)) (hpos : ∀ b ∈ bufs, 0 < b.frames) :
    run e (drainEvents t bufs) =
      some ((e.emit t (deliveries w.callback bufs)).setThread t
        (some { w with pc := Pc.inner S_OK 0 })) := by
  induction bufs generalizing e w with
  | nil =>
    have hw : ({ w with pc := Pc.inner S_OK 0 } : Worker) = w := by
      cases w
      simp only [pending] at hpc
      simp_all
    simp [drainEvents, run, deliveries, hw, setThread_self e t w hth]
  | cons b rest ih =>
    have hb := hpos b (List.mem_cons_self _ _)
    have hc : innerCondition S_OK (pending (b :: rest)) = true := by
      simp [innerCondition, SUCCEEDED, S_OK, pending, hb]
    simp only [drainEvents, run, step_fetch e t w S_OK _ b _ hterm hth hpc hc]
    rw [ih _ { w with pc := Pc.inner S_OK (pending rest) } (by simpa using hterm) (by simp) rfl
      (fun x hx => hpos x (List.mem_cons_of_mem _ hx))]
    simp [deliveries, setThread_emit, emit_emit]


theorem run_append (e : Engine) (a b : List Event) :
    run e (a ++ b) = (run e a).bind (fun e1 => run e1 b) := by
  induction a generalizing e with
  | nil => rfl
  | cons ev rest ih =>
    simp only [List.cons_append, run]
    cases step e ev with
    | none => rfl
    | some e1 => exact ih e1

/-- The step that evaluates a true outer loop condition. -/
theorem step_poll_continue (e : Engine) (t : Bool) (w : Worker) (ps : PacketSize)
    (hterm : e.terminated = false) (hth : e.thread t = some w) (hpc : w.pc = Pc.loopHead)
    (hc : loopCondition e w.capturing_flag = true) :
    step e (Event.poll t ps) =
      some (e.setThread t (some { w with pc := Pc.inner ps.hr ps.packetLength })) := by
  simp [step, hterm, hth, workerStep, hpc, hc]

/-- The step that leaves the inner loop and sleeps. -/
theorem step_idle (e : Engine) (t : Bool) (w : Worker) (hr : HRESULT) (n : Nat)
    (hterm : e.terminated = false) (hth : e.thread t = some w) (hpc : w.pc = Pc.inner hr n)
    (hc : innerCondition hr n = false) :
    step e (Event.idle t) =
      some ((e.emit t [Op.sleep 10]).setThread t (some { w with pc := Pc.loopHead })) := by
  simp [step, hterm, hth, workerStep, hpc, hc]

/-- One iteration of the outer loop over a queue of non-empty packets. -/
theorem run_passEvents (t : Bool) (bufs : List Packet) (e : Engine) (w : Worker)
    (hterm : e.terminated = false) (hth : e.thread t = some w) (hpc : w.pc = Pc.loopHead)
    (hc : loopCondition e w.capturing_flag = true) (hpos : ∀ b ∈ bufs, 0 < b.frames) :
    run e (passEvents t bufs) =
      some ((e.emit t (deliveries w.callback bufs ++ [Op.sleep 10])).setThread t (some w)) := by
  have hw : ({ w with pc := Pc.loopHead } : Worker) = w := by
    cases w
    simp_all
  have hidle : innerCondition S_OK 0 = false := by simp [innerCondition]
  simp only [passEvents, run, step_poll_continue e t w _ hterm hth hpc hc, run_append]
  rw [run_drainEvents t bufs _ { w with pc := Pc.inner S_OK (pending bufs) }
    (by simpa using hterm) (by simp) rfl hpos]
  simp only [Option.bind, run]
  rw [step_idle _ t { w with pc := Pc.inner S_OK 0 } S_OK 0 (by simpa using hterm) (by simp)
    rfl hidle]
  simp [setThread_emit, emit_emit, hw]

/-- Consecutive iterations of the outer loop over queues of non-empty packets. -/
theorem run_sessionEvents (t : Bool) (passes : List (List Packet)) (e : Engine) (w : Worker)
    (hterm : e.terminated = false) (hth : e.thread t = some w) (hpc : w.pc = Pc.loopHead)
    (hc : loopCondition e w.capturing_flag = true)
    (hpos : ∀ bufs ∈ passes, ∀ b ∈ bufs, 0 < b.frames) :
    run e (sessionEvents t passes) =
      some ((e.emit t (sessionOps w.callback passes)).setThread t (some w)) := by
  induction passes generalizing e with
  | nil => simp [sessionEvents, run, sessionOps, setThread_self e t w hth]
  | cons bufs rest ih =>
    simp only [sessionEvents, run_append,
      run_passEvents t bufs e w hterm hth hpc hc (hpos bufs (List.mem_cons_self _ _)),
      Option.bind]
    rw [ih _ (by simpa using hterm) (by simp) (by simpa using hc)
      (fun x hx => hpos x (List.mem_cons_of_mem _ hx))]
    simp [sessionOps, setThread_emit, emit_emit]

theorem callbacksIn_sessionOps (cb : Nat) (passes : List (List Packet))
    (hok : ∀ bufs ∈ passes, ∀ b ∈ bufs, SUCCEEDED b.hr = true ∧ 0 < b.frames) :
    callbacksIn (sessionOps (some cb) passes) = passes.flatten.map (fun b => (cb, b.frames)) := by
  induction passes with
  | nil => rfl
  | cons bufs rest ih =>
    have h1 := callbacksIn_deliveries cb bufs (hok bufs (List.mem_cons_self _ _))
    have h2 := ih (fun x hx => hok x (List.mem_cons_of_mem _ hx))
    have h3 : callbacksIn [Op.sleep 10] = [] := rfl
    simp only [sessionOps]
    rw [callbacksIn_append, callbacksIn_append, h1, h2, h3]
    simp

/-! ## Delivery of buffers -/

/-- C5: a worker at the head of its capture loop, with a non-empty callback
and a true loop condition, that is handed any finite sequence of queues of
non-empty packets whose `GetBuffer` calls succeed, takes every step of the
run, and the callback invocations it adds are exactly one per packet, in
the order of the packets, across the iterations of the outer loop, whatever
the buffer flags (silent or not); the log of the other thread gains none. -/
theorem ordered_exactly_once_delivery (t : Bool) (passes : List (List Packet)) (e : Engine)
    (w : Worker) (cb : Nat) (hterm : e.terminated = false) (hth : e.thread t = some w)
    (hpc : w.pc = Pc.loopHead) (hcb : w.callback = some cb)
    (hc : loopCondition e w.capturing_flag = true)
    (hok : ∀ bufs ∈ passes, ∀ b ∈ bufs, SUCCEEDED b.hr = true ∧ 0 < b.frames) :
    ∃ e1, run e (sessionEvents t passes) = some e1 ∧
      callbacksOf t e1.log = callbacksOf t e.log ++ passes.flatten.map (fun b => (cb, b.frames)) ∧
      callbacksOf (!t) e1.log = callbacksOf (!t) e.log ∧
      e1.thread t = some w ∧ loopCondition e1 w.capturing_flag = true := by
  refine ⟨_, run_sessionEvents t passes e w hterm hth hpc hc
    (fun bufs hb b hm => (hok bufs hb b hm).2), ?_, ?_, by simp, by simpa using hc⟩
  · simp [callbacksOf_append, callbacksOf_same, hcb, callbacksIn_sessionOps cb passes hok]
  · have h := callbacksOf_other (!t) (sessionOps w.callback passes)
    simp only [Bool.not_not] at h
    simp [callbacksOf_append, h]

/-- Witness for C5: three packets, the second flagged silent, then a second
iteration with one more packet. -/
theorem ordered_exactly_once_delivery_witness :
    ∃ e1, run micReady (sessionEvents false [threePackets, [⟨S_OK, 7, 0⟩]]) = some e1 ∧
      callbacksOf false e1.log = [(2, 120), (2, 120), (2, 120), (2, 7)] :=
  have h := ordered_exactly_once_delivery false [threePackets, [⟨S_OK, 7, 0⟩]] micReady
    micWorker 2 (by decide) (by decide) rfl rfl (by decide) (by decide)
  h.imp fun _ h1 => ⟨h1.1, h1.2.1⟩

/-- C4, evaluated: on a microphone stream negotiated to 4 bytes per frame,
three packets of 120 frames are three buffers of 480 bytes, yet the callback
receives the length 120 each time, 360 in total instead of 1440. -/
theorem callback_length_is_frame_count :
    (captureSetup false "" okScript).2 = some (Handle.desiredFormat, desiredFormat) ∧
    threePackets.map (fun b => bufferBytes desiredFormat b.frames) = [480, 480, 480] ∧
    (run Engine.new threePacketRun).map (fun e => callbacksOf false e.log) =
      some [(2, 120), (2, 120), (2, 120)] ∧
    (run Engine.new threePacketRun).map
      (fun e => ((callbacksOf false e.log).map Prod.snd).sum) = some 360 := by
  refine ⟨by decide, by decide, by decide, by decide⟩


/-! ## Independence of the two sessions -/

/-- A stop call on a running session raises the one signal both loops read:
afterwards the loop condition is false for either flag. -/
theorem stop_raises_shared_signal (e : Engine) (r : FlagRef) :
    (e.system_audio_capturing_ = true → loopCondition (StopSystemAudioCapture e) r = false) ∧
    (e.microphone_capturing_ = true → loopCondition (StopMicrophoneCapture e) r = false) := by
  constructor <;> intro h
  · unfold StopSystemAudioCapture
    cases hth : e.system_audio_thread_ <;> cases r <;> simp [h, hth, loopCondition, Engine.load]
  · unfold StopMicrophoneCapture
    cases hth : e.microphone_thread_ <;> cases r <;> simp [h, hth, loopCondition, Engine.load]

/-- C1, evaluated: with both sessions running, after `StopSystemAudioCapture`
has returned the microphone flag is still set but the loop condition of the
microphone worker is false, and at its next evaluation the worker cleans up,
returns and clears `microphone_capturing_`, although no stop of the microphone
session was called and none of its calls failed.  The same with the roles of
the sessions exchanged. -/
theorem stop_of_one_session_ends_the_other :
    (run Engine.new stopSystemWhileBoth).map
      (fun e => (e.joining, e.microphone_capturing_,
        loopCondition e FlagRef.microphone_capturing_)) = some (none, true, false) ∧
    (run Engine.new (stopSystemWhileBoth ++ [Event.poll false ⟨S_OK, 120⟩])).map
      (fun e => (e.microphone_capturing_, workerExited e false)) = some (false, true) ∧
    (run Engine.new stopMicrophoneWhileBoth).map
      (fun e => (e.joining, e.system_audio_capturing_,
        loopCondition e FlagRef.system_audio_capturing_)) = some (none, true, false) ∧
    (run Engine.new (stopMicrophoneWhileBoth ++ [Event.poll true ⟨S_OK, 120⟩])).map
      (fun e => (e.system_audio_capturing_, workerExited e true)) = some (false, true) := by
  refine ⟨by decide, by decide, by decide, by decide⟩


/-! ## Reachable states -/

/-- Every enabled worker step either appends operations and moves the worker,
or appends operations, clears the flag the worker holds and returns. -/
theorem workerStep_cases (e e1 : Engine) (s : Bool) (w : Worker) (ev : Event)
    (h : workerStep e s w ev = some e1) :
    w.pc ≠ Pc.returned ∧
    ((∃ ops w1, e1 = (e.emit s ops).setThread s (some w1) ∧
        w1.capturing_flag = w.capturing_flag) ∨
     (∃ ops w1, e1 = ((e.emit s ops).store w.capturing_flag false).setThread s (some w1) ∧
        w1.capturing_flag = w.capturing_flag ∧ w1.pc = Pc.returned)) := by
  unfold workerStep at h
  cases ev with
  | setup t p =>
    cases hpc : w.pc <;> simp only [hpc] at h <;> try (exact Option.noConfusion h)
    refine ⟨by simp, ?_⟩
    cases hr : (captureSetup w.loopback w.deviceId p).2 with
    | none =>
      simp only [hr, Option.some.injEq] at h
      exact Or.inr ⟨_, _, h.symm, rfl, rfl⟩
    | some pwfx =>
      simp only [hr, Option.some.injEq] at h
      exact Or.inl ⟨_, _, h.symm, rfl⟩
  | poll t ps =>
    cases hpc : w.pc <;> simp only [hpc] at h <;> try (exact Option.noConfusion h)
    refine ⟨by simp, ?_⟩
    cases hc : loopCondition e w.capturing_flag
    · simp only [hc, Bool.false_eq_true, if_false, Option.some.injEq] at h
      exact Or.inr ⟨_, _, h.symm, rfl, rfl⟩
    · simp only [hc, if_true, Option.some.injEq] at h
      exact Or.inl ⟨[], { w with pc := Pc.inner ps.hr ps.packetLength }, by
        rw [emit_nil]; exact h.symm, rfl⟩
  | fetch t b next =>
    cases hpc : w.pc <;> simp only [hpc] at h <;> try (exact Option.noConfusion h)
    refine ⟨by simp, ?_⟩
    split at h
    · simp only [Option.some.injEq] at h
      exact Or.inl ⟨_, _, h.symm, rfl⟩
    · exact Option.noConfusion h
  | idle t =>
    cases hpc : w.pc <;> simp only [hpc] at h <;> try (exact Option.noConfusion h)
    refine ⟨by simp, ?_⟩
    split at h
    · exact Option.noConfusion h
    · simp only [Option.some.injEq] at h
      exact Or.inl ⟨_, _, h.symm, rfl⟩
  | startSystem _ _ => exact Option.noConfusion h
  | startMicrophone _ _ => exact Option.noConfusion h
  | stopSystem => exact Option.noConfusion h
  | stopMicrophone => exact Option.noConfusion h
  | joined => exact Option.noConfusion h

@[simp] theorem isCapturing_setThread (e : Engine) (s : Bool) (w : Option Worker) (t : Bool) :
    (e.setThread s w).isCapturing t = e.isCapturing t := by
  cases s <;> rfl

@[simp] theorem isCapturing_emit (e : Engine) (s : Bool) (ops : List Op) (t : Bool) :
    (e.emit s ops).isCapturing t = e.isCapturing t := rfl

theorem isCapturing_store_false (e : Engine) (r : FlagRef) (t : Bool) :
    (e.store r false).isCapturing t = (e.isCapturing t && decide (r ≠ flagOf t)) := by
  cases r <;> cases t <;> simp [Engine.store, Engine.isCapturing, flagOf]

@[simp] theorem joining_setThread (e : Engine) (s : Bool) (w : Option Worker) :
    (e.setThread s w).joining = e.joining := by
  cases s <;> rfl

@[simp] theorem joining_emit (e : Engine) (s : Bool) (ops : List Op) :
    (e.emit s ops).joining = e.joining := rfl

@[simp] theorem joining_store (e : Engine) (r : FlagRef) (v : Bool) :
    (e.store r v).joining = e.joining := by
  cases r <;> rfl

theorem thread_setThread (e : Engine) (s : Bool) (w : Option Worker) (t : Bool) :
    (e.setThread s w).thread t = if t = s then w else e.thread t := by
  cases s <;> cases t <;> rfl

/-- The invariant holds in a freshly constructed engine. -/
theorem inv_new : Inv Engine.new := by
  constructor
  · intro t w h
    cases t <;> simp [Engine.new, Engine.thread] at h
  · intro t w h
    cases t <;> simp [Engine.new, Engine.thread] at h
  · intro t h
    simp [Engine.new] at h

/-- A worker step preserves the invariant. -/
theorem inv_workerStep (e e1 : Engine) (s : Bool) (w : Worker) (ev : Event) (hi : Inv e)
    (hth : e.thread s = some w) (h : workerStep e s w ev = some e1) : Inv e1 := by
  obtain ⟨hlive, hcases⟩ := workerStep_cases e e1 s w ev h
  have hfw := hi.flag s w hth
  rcases hcases with ⟨ops, w1, rfl, hw1⟩ | ⟨ops, w1, rfl, hw1, hret⟩
  · constructor
    · intro t w2 h2
      rw [thread_setThread] at h2
      split at h2
      · next heq =>
        cases h2
        rw [hw1, hfw, heq]
      · exact hi.flag t w2 (by simpa using h2)
    · intro t w2 h2 hpc
      rw [thread_setThread] at h2
      split at h2
      · next heq =>
        subst heq
        simpa using hi.alive t w hth hlive
      · simpa using hi.alive t w2 (by simpa using h2) hpc
    · intro t ht
      simpa using hi.waiting t (by simpa using ht)
  · constructor
    · intro t w2 h2
      rw [thread_setThread] at h2
      split at h2
      · next heq =>
        cases h2
        rw [hw1, hfw, heq]
      · exact hi.flag t w2 (by simpa using h2)
    · intro t w2 h2 hpc
      rw [thread_setThread] at h2
      split at h2
      · next heq =>
        cases h2
        exact absurd hret hpc
      · next hne =>
        have h3 : e.thread t = some w2 := by simpa using h2
        have hne2 : w.capturing_flag ≠ flagOf t := by
          rw [hfw]
          cases t <;> cases s <;> simp [flagOf] at hne ⊢
        simpa [isCapturing_store_false, hne2] using hi.alive t w2 h3 hpc
    · intro t ht
      have := hi.waiting t (by simpa using ht)
      simp [isCapturing_store_false, this]

/-- The body of `StartSystemAudioCapture` preserves the invariant. -/
theorem inv_startSystem (e : Engine) (d : String) (c : Option Nat) (hi : Inv e) (hj : e.joining = none) :
    Inv (StartSystemAudioCapture e d c).engine := by
  obtain ⟨hflag, halive, hwait⟩ := hi
  have a1 := halive true
  have a2 := halive false
  have f1 := hflag true
  have f2 := hflag false
  rcases e with ⟨sys, mic, ss, st, mt, j, term, log⟩
  simp only at hj
  subst hj
  simp only [Engine.thread, Engine.isCapturing, flagOf, if_true, Bool.false_eq_true,
    if_false] at a1 a2 f1 f2
  cases sys <;> cases st <;>
    (constructor <;> intro t <;> cases t <;>
      simp_all [StartSystemAudioCapture, StartCapture, Engine.load, Engine.store, Engine.thread, Engine.isCapturing, flagOf])

/-- The body of `StartMicrophoneCapture` preserves the invariant. -/
theorem inv_startMicrophone (e : Engine) (d : String) (c : Option Nat) (hi : Inv e) (hj : e.joining = none) :
    Inv (StartMicrophoneCapture e d c).engine := by
  obtain ⟨hflag, halive, hwait⟩ := hi
  have a1 := halive true
  have a2 := halive false
  have f1 := hflag true
  have f2 := hflag false
  rcases e with ⟨sys, mic, ss, st, mt, j, term, log⟩
  simp only at hj
  subst hj
  simp only [Engine.thread, Engine.isCapturing, flagOf, if_true, Bool.false_eq_true,
    if_false] at a1 a2 f1 f2
  cases mic <;> cases mt <;>
    (constructor <;> intro t <;> cases t <;>
      simp_all [StartMicrophoneCapture, StartCapture, Engine.load, Engine.store, Engine.thread, Engine.isCapturing, flagOf])

/-- The body of `StopSystemAudioCapture` preserves the invariant. -/
theorem inv_stopSystem (e : Engine) (hi : Inv e) (hj : e.joining = none) :
    Inv (StopSystemAudioCapture e) := by
  obtain ⟨hflag, halive, hwait⟩ := hi
  have a1 := halive true
  have a2 := halive false
  have f1 := hflag true
  have f2 := hflag false
  rcases e with ⟨sys, mic, ss, st, mt, j, term, log⟩
  simp only at hj
  subst hj
  simp only [Engine.thread, Engine.isCapturing, flagOf, if_true, Bool.false_eq_true,
    if_false] at a1 a2 f1 f2
  cases sys <;> cases st <;>
    (constructor <;> intro t <;> cases t <;>
      simp_all [StopSystemAudioCapture, Engine.thread, Engine.isCapturing, flagOf])

/-- The body of `StopMicrophoneCapture` preserves the invariant. -/
theorem inv_stopMicrophone (e : Engine) (hi : Inv e) (hj : e.joining = none) :
    Inv (StopMicrophoneCapture e) := by
  obtain ⟨hflag, halive, hwait⟩ := hi
  have a1 := halive true
  have a2 := halive false
  have f1 := hflag true
  have f2 := hflag false
  rcases e with ⟨sys, mic, ss, st, mt, j, term, log⟩
  simp only at hj
  subst hj
  simp only [Engine.thread, Engine.isCapturing, flagOf, if_true, Bool.false_eq_true,
    if_false] at a1 a2 f1 f2
  cases mic <;> cases mt <;>
    (constructor <;> intro t <;> cases t <;>
      simp_all [StopMicrophoneCapture, Engine.thread, Engine.isCapturing, flagOf])

/-- The completion of a pending `join()` preserves the invariant. -/
theorem inv_joined (e : Engine) (t : Bool) (hi : Inv e) (hj : e.joining = some t) :
    Inv { e.setThread t none with joining := none } := by
  constructor
  · intro t2 w2 h2
    have h3 : (e.setThread t none).thread t2 = some w2 := h2
    rw [thread_setThread] at h3
    split at h3
    · exact Option.noConfusion h3
    · exact hi.flag t2 w2 h3
  · intro t2 w2 h2 hpc
    have h3 : (e.setThread t none).thread t2 = some w2 := h2
    rw [thread_setThread] at h3
    split at h3
    · exact Option.noConfusion h3
    · next hne =>
      have h4 : (e.setThread t none).isCapturing t2 = e.isCapturing t2 := by simp
      rcases hi.alive t2 w2 h3 hpc with h5 | h5
      · exact Or.inl (h4 ▸ h5)
      · rw [hj] at h5
        exact absurd (Option.some.inj h5).symm hne
  · intro t2 h2
    exact Option.noConfusion h2

/-- Every step preserves the invariant. -/
theorem inv_step (e e1 : Engine) (ev : Event) (hi : Inv e) (hs : step e ev = some e1) :
    Inv e1 := by
  unfold step at hs
  cases hterm : e.terminated
  swap
  · simp [hterm] at hs
  simp only [hterm, Bool.false_eq_true, if_false] at hs
  cases ev with
  | setup t p =>
    cases hth : e.thread t with
    | none => simp [hth] at hs
    | some w => exact inv_workerStep e e1 t w _ hi hth (by simpa [hth] using hs)
  | poll t ps =>
    cases hth : e.thread t with
    | none => simp [hth] at hs
    | some w => exact inv_workerStep e e1 t w _ hi hth (by simpa [hth] using hs)
  | fetch t b next =>
    cases hth : e.thread t with
    | none => simp [hth] at hs
    | some w => exact inv_workerStep e e1 t w _ hi hth (by simpa [hth] using hs)
  | idle t =>
    cases hth : e.thread t with
    | none => simp [hth] at hs
    | some w => exact inv_workerStep e e1 t w _ hi hth (by simpa [hth] using hs)
  | joined =>
    cases hj : e.joining with
    | none => simp [hj] at hs
    | some t =>
      cases hth : e.thread t with
      | none => simp [hj, hth] at hs
      | some w =>
        simp only [hj, hth] at hs
        split at hs
        · simp only [Option.some.injEq] at hs
          subst hs
          exact inv_joined e t hi hj
        · exact Option.noConfusion hs
  | startSystem d c =>
    cases hj : e.joining with
    | some t => simp [hj] at hs
    | none =>
      simp only [hj, Option.isSome_none, Bool.false_eq_true, if_false, Option.some.injEq] at hs
      subst hs
      exact inv_startSystem e d c hi hj
  | startMicrophone d c =>
    cases hj : e.joining with
    | some t => simp [hj] at hs
    | none =>
      simp only [hj, Option.isSome_none, Bool.false_eq_true, if_false, Option.some.injEq] at hs
      subst hs
      exact inv_startMicrophone e d c hi hj
  | stopSystem =>
    cases hj : e.joining with
    | some t => simp [hj] at hs
    | none =>
      simp only [hj, Option.isSome_none, Bool.false_eq_true, if_false, Option.some.injEq] at hs
      subst hs
      exact inv_stopSystem e hi hj
  | stopMicrophone =>
    cases hj : e.joining with
    | some t => simp [hj] at hs
    | none =>
      simp only [hj, Option.isSome_none, Bool.false_eq_true, if_false, Option.some.injEq] at hs
      subst hs
      exact inv_stopMicrophone e hi hj

/-- The invariant holds in every state a run reaches from a state where it holds. -/
theorem inv_run (evs : List Event) (e e1 : Engine) (hi : Inv e) (h : run e evs = some e1) :
    Inv e1 := by
  induction evs generalizing e with
  | nil =>
    simp only [run, Option.some.injEq] at h
    exact h ▸ hi
  | cons ev rest ih =>
    simp only [run] at h
    cases hs : step e ev with
    | none =>
      rw [hs] at h
      exact Option.noConfusion h
    | some e2 =>
      rw [hs] at h
      exact ih e2 (inv_step e e2 ev hi hs) h


/-! ## A session at rest stays at rest -/

/-- The body of `StopSystemAudioCapture` leaves a session at rest and the log as it is. -/
theorem quiet_stopSystem (e : Engine) (t : Bool) (hq : Quiet e t) :
    Quiet (StopSystemAudioCapture e) t ∧ (StopSystemAudioCapture e).log = e.log := by
  rcases e with ⟨sys, mic, ss, st, mt, j, term, log⟩
  unfold Quiet workerExited at hq ⊢
  cases t <;> cases sys <;> cases st <;>
    simp_all [StopSystemAudioCapture, Engine.thread, Engine.isCapturing]

/-- The body of `StopMicrophoneCapture` leaves a session at rest and the log as it is. -/
theorem quiet_stopMicrophone (e : Engine) (t : Bool) (hq : Quiet e t) :
    Quiet (StopMicrophoneCapture e) t ∧ (StopMicrophoneCapture e).log = e.log := by
  rcases e with ⟨sys, mic, ss, st, mt, j, term, log⟩
  unfold Quiet workerExited at hq ⊢
  cases t <;> cases mic <;> cases mt <;>
    simp_all [StopMicrophoneCapture, Engine.thread, Engine.isCapturing]

/-- Starting system audio leaves a microphone session at rest. -/
theorem quiet_startSystem (e : Engine) (d : String) (c : Option Nat) (hj : e.joining = none)
    (hq : Quiet e false) :
    Quiet (StartSystemAudioCapture e d c).engine false ∧
      (StartSystemAudioCapture e d c).engine.log = e.log := by
  rcases e with ⟨sys, mic, ss, st, mt, j, term, log⟩
  unfold Quiet workerExited at hq ⊢
  cases sys <;> cases st <;>
    simp_all [StartSystemAudioCapture, StartCapture, Engine.load, Engine.store, Engine.thread,
      Engine.isCapturing]

/-- Starting the microphone leaves a system audio session at rest. -/
theorem quiet_startMicrophone (e : Engine) (d : String) (c : Option Nat)
    (hj : e.joining = none) (hq : Quiet e true) :
    Quiet (StartMicrophoneCapture e d c).engine true ∧
      (StartMicrophoneCapture e d c).engine.log = e.log := by
  rcases e with ⟨sys, mic, ss, st, mt, j, term, log⟩
  unfold Quiet workerExited at hq ⊢
  cases mic <;> cases mt <;>
    simp_all [StartMicrophoneCapture, StartCapture, Engine.load, Engine.store, Engine.thread,
      Engine.isCapturing]

/-- A worker step leaves a session at rest and adds none of its callbacks:
the worker of a session at rest cannot step, and the other worker touches
neither the thread member nor, other than by clearing, the flag. -/
theorem quiet_workerStep (e e1 : Engine) (s t : Bool) (w : Worker) (ev : Event)
    (hq : Quiet e t) (hth : e.thread s = some w) (h : workerStep e s w ev = some e1) :
    Quiet e1 t ∧ callbacksOf t e1.log = callbacksOf t e.log := by
  obtain ⟨hlive, hcases⟩ := workerStep_cases e e1 s w ev h
  obtain ⟨hflag, hexit, hjoin⟩ := hq
  have hst : s = !t := by
    cases s <;> cases t <;> simp_all [workerExited]
  subst hst
  have hne : ¬ (t = !t) := by cases t <;> simp
  have hlog : ∀ ops : List Op,
      callbacksOf t (e.log ++ ops.map (fun o => (!t, o))) = callbacksOf t e.log := by
    intro ops
    rw [callbacksOf_append, callbacksOf_other, List.append_nil]
  rcases hcases with ⟨ops, w1, rfl, _⟩ | ⟨ops, w1, rfl, _, _⟩
  · refine ⟨⟨by simpa using hflag, ?_, by simpa using hjoin⟩, by simp [hlog]⟩
    unfold workerExited at hexit ⊢
    rw [thread_setThread, if_neg hne]
    exact hexit
  · refine ⟨⟨by simp [isCapturing_store_false, hflag], ?_, by simpa using hjoin⟩,
      by simp [hlog]⟩
    unfold workerExited at hexit ⊢
    rw [thread_setThread, if_neg hne]
    simpa using hexit

/-- Any step other than a start of session `t` leaves `t` at rest and adds no
callback invocation of thread `t`. -/
theorem quiet_step (e e1 : Engine) (t : Bool) (ev : Event) (hq : Quiet e t)
    (hns : isStartOf t ev = false) (hs : step e ev = some e1) :
    Quiet e1 t ∧ callbacksOf t e1.log = callbacksOf t e.log := by
  unfold step at hs
  cases hterm : e.terminated
  swap
  · simp [hterm] at hs
  simp only [hterm, Bool.false_eq_true, if_false] at hs
  cases ev with
  | setup s p =>
    cases hth : e.thread s with
    | none => simp [hth] at hs
    | some w => exact quiet_workerStep e e1 s t w _ hq hth (by simpa [hth] using hs)
  | poll s ps =>
    cases hth : e.thread s with
    | none => simp [hth] at hs
    | some w => exact quiet_workerStep e e1 s t w _ hq hth (by simpa [hth] using hs)
  | fetch s b next =>
    cases hth : e.thread s with
    | none => simp [hth] at hs
    | some w => exact quiet_workerStep e e1 s t w _ hq hth (by simpa [hth] using hs)
  | idle s =>
    cases hth : e.thread s with
    | none => simp [hth] at hs
    | some w => exact quiet_workerStep e e1 s t w _ hq hth (by simpa [hth] using hs)
  | joined =>
    cases hj : e.joining with
    | none => simp [hj] at hs
    | some s =>
      cases hth : e.thread s with
      | none => simp [hj, hth] at hs
      | some w =>
        simp only [hj, hth] at hs
        split at hs
        · simp only [Option.some.injEq] at hs
          subst hs
          obtain ⟨hflag, hexit, hjoin⟩ := hq
          have hne : ¬ (t = s) := by
            intro h
            rw [hj, h] at hjoin
            exact hjoin rfl
          refine ⟨⟨?_, ?_, by simp⟩, by simp⟩
          · have h4 : (e.setThread s none).isCapturing t = e.isCapturing t := by simp
            exact h4.trans hflag
          · unfold workerExited at hexit ⊢
            have h5 : (e.setThread s none).thread t = e.thread t := by
              rw [thread_setThread, if_neg hne]
            have h6 : Engine.thread { e.setThread s none with joining := none } t =
                (e.setThread s none).thread t := rfl
            rw [h6, h5]
            exact hexit
        · exact Option.noConfusion hs
  | startSystem d c =>
    cases hj : e.joining with
    | some s => simp [hj] at hs
    | none =>
      simp only [hj, Option.isSome_none, Bool.false_eq_true, if_false, Option.some.injEq] at hs
      subst hs
      have ht : t = false := by simpa [isStartOf] using hns
      subst ht
      have h := quiet_startSystem e d c hj hq
      exact ⟨h.1, by rw [h.2]⟩
  | startMicrophone d c =>
    cases hj : e.joining with
    | some s => simp [hj] at hs
    | none =>
      simp only [hj, Option.isSome_none, Bool.false_eq_true, if_false, Option.some.injEq] at hs
      subst hs
      have ht : t = true := by simpa [isStartOf] using hns
      subst ht
      have h := quiet_startMicrophone e d c hj hq
      exact ⟨h.1, by rw [h.2]⟩
  | stopSystem =>
    cases hj : e.joining with
    | some s => simp [hj] at hs
    | none =>
      simp only [hj, Option.isSome_none, Bool.false_eq_true, if_false, Option.some.injEq] at hs
      subst hs
      have h := quiet_stopSystem e t hq
      exact ⟨h.1, by rw [h.2]⟩
  | stopMicrophone =>
    cases hj : e.joining with
    | some s => simp [hj] at hs
    | none =>
      simp only [hj, Option.isSome_none, Bool.false_eq_true, if_false, Option.some.injEq] at hs
      subst hs
      have h := quiet_stopMicrophone e t hq
      exact ⟨h.1, by rw [h.2]⟩

/-- A run without a start of session `t` leaves `t` at rest and adds no
callback invocation of thread `t`. -/
theorem quiet_run (t : Bool) (evs : List Event) (e e1 : Engine) (hq : Quiet e t)
    (hns : ∀ x ∈ evs, isStartOf t x = false) (h : run e evs = some e1) :
    Quiet e1 t ∧ callbacksOf t e1.log = callbacksOf t e.log := by
  induction evs generalizing e with
  | nil =>
    simp only [run, Option.some.injEq] at h
    subst h
    exact ⟨hq, rfl⟩
  | cons ev rest ih =>
    simp only [run] at h
    cases hs : step e ev with
    | none =>
      rw [hs] at h
      exact Option.noConfusion h
    | some e2 =>
      rw [hs] at h
      have h1 := quiet_step e e2 t ev hq (hns ev (List.mem_cons_self _ _)) hs
      have h2 := ih e2 h1.1 (fun x hx => hns x (List.mem_cons_of_mem _ hx)) h
      exact ⟨h2.1, h2.2.trans h1.2⟩

/-- When the stop call of session `t` returns from a state that satisfies the
invariant, the session is at rest. -/
theorem quiet_of_stopReturns (e e1 : Engine) (t : Bool) (ev : Event) (hi : Inv e)
    (hs : step e ev = some e1) (hret : stopReturns t e ev = true) : Quiet e1 t := by
  obtain ⟨_, halive, hwait⟩ := hi
  have a1 := halive true
  have a2 := halive false
  have w1 := hwait true
  have w2 := hwait false
  unfold step at hs
  cases hterm : e.terminated
  swap
  · simp [hterm] at hs
  simp only [hterm, Bool.false_eq_true, if_false] at hs
  rcases e with ⟨sys, mic, ss, st, mt, j, term, log⟩
  simp only [Engine.thread, Engine.isCapturing, if_true, Bool.false_eq_true,
    if_false] at a1 a2 w1 w2
  unfold Quiet workerExited
  cases ev with
  | stopSystem =>
    cases j with
    | some s => simp at hs
    | none =>
      simp only [Option.isSome_none, Bool.false_eq_true, if_false, Option.some.injEq] at hs
      subst hs
      cases t <;> cases sys <;> cases st <;>
        simp_all [stopReturns, StopSystemAudioCapture, Engine.thread, Engine.isCapturing]
  | stopMicrophone =>
    cases j with
    | some s => simp at hs
    | none =>
      simp only [Option.isSome_none, Bool.false_eq_true, if_false, Option.some.injEq] at hs
      subst hs
      cases t <;> cases mic <;> cases mt <;>
        simp_all [stopReturns, StopMicrophoneCapture, Engine.thread, Engine.isCapturing]
  | joined =>
    cases j with
    | none => simp at hs
    | some s =>
      have hst : s = t := by simpa [stopReturns] using hret
      subst hst
      cases s <;> cases st <;> cases mt <;>
        simp_all [Engine.thread, Engine.isCapturing, Engine.setThread] <;>
        (obtain ⟨_, rfl⟩ := hs
         simp)
  | startSystem _ _ => simp [stopReturns] at hret
  | startMicrophone _ _ => simp [stopReturns] at hret
  | setup _ _ => simp [stopReturns] at hret
  | poll _ _ => simp [stopReturns] at hret
  | fetch _ _ _ => simp [stopReturns] at hret
  | idle _ => simp [stopReturns] at hret


/-! ## The postcondition of stop -/

/-- C3: in every state reachable from a freshly constructed engine, when the
stop call of a session returns (at once, or when its `join()` completes) the
running flag of the session is false and its worker has exited; and from then
on, through any further events until the session is started again, the flag
stays false, no worker of the session runs, and the log gains no callback
invocation of the session. -/
theorem stop_postcondition (t : Bool) (e e1 : Engine) (ev : Event)
    (hreach : Reachable e) (hstep : step e ev = some e1)
    (hret : stopReturns t e ev = true) :
    e1.isCapturing t = false ∧ workerExited e1 t = true ∧
    ∀ later e2, (∀ x ∈ later, isStartOf t x = false) → run e1 later = some e2 →
      callbacksOf t e2.log = callbacksOf t e1.log ∧
      e2.isCapturing t = false ∧ workerExited e2 t = true := by
  obtain ⟨evs, hevs⟩ := hreach
  have hi : Inv e := inv_run evs Engine.new e inv_new hevs
  have hq : Quiet e1 t := quiet_of_stopReturns e e1 t ev hi hstep hret
  refine ⟨hq.1, hq.2.1, ?_⟩
  intro later e2 hns hrun
  have h := quiet_run t later e1 e2 hq hns hrun
  exact ⟨h.2, h.1.1, h.1.2.1⟩

/-- Witness for C3: a microphone session that delivered three buffers is
stopped; after the stop call returns its flag is false, its worker is gone,
and a system audio session that runs afterwards leaves the three recorded
callback invocations of the microphone as they are. -/
theorem stop_postcondition_witness :
    micStopped.isCapturing false = false ∧ workerExited micStopped false = true ∧
    (run micStopped systemAfterwards).map (fun e2 => callbacksOf false e2.log) =
      some [(2, 120), (2, 120), (2, 120)] :=
  have h := stop_postcondition false micStopping micStopped Event.joined
    ⟨stopMicrophoneAfterDelivery, by decide⟩ (by decide) (by decide)
  have h2 := (h.2.2 systemAfterwards ((run micStopped systemAfterwards).getD Engine.new)
    (by decide) (by decide)).1
  ⟨h.1, h.2.1, by
    have h3 : run micStopped systemAfterwards =
        some ((run micStopped systemAfterwards).getD Engine.new) := by decide
    rw [h3, Option.map_some', h2]
    decide⟩


/-! ## A blocked stop call can return -/

/-- The step that evaluates a false outer loop condition: clean up, clear the
flag, return. -/
theorem step_poll_exit (e : Engine) (t : Bool) (w : Worker) (ps : PacketSize)
    (hterm : e.terminated = false) (hth : e.thread t = some w) (hpc : w.pc = Pc.loopHead)
    (hc : loopCondition e w.capturing_flag = false) :
    step e (Event.poll t ps) =
      some (((e.emit t (captureCleanup w.pwfx)).store w.capturing_flag false).setThread t
        (some { w with pc := Pc.returned })) := by
  simp [step, hterm, hth, workerStep, hpc, hc]

/-- While the stop call of session `t` waits in `join()`, the worker of `t`
can always finish: from wherever it stands, at most four of its own steps,
with the platform reporting an empty queue, take it to its `return`, after
which the `join()` completes. -/
theorem blocked_stop_can_return (e : Engine) (t : Bool) (w : Worker) (hi : Inv e)
    (hterm : e.terminated = false) (hj : e.joining = some t) (hth : e.thread t = some w) :
    ∃ evs e1 e2, run e evs = some e1 ∧ step e1 Event.joined = some e2 ∧
      stopReturns t e1 Event.joined = true ∧ evs.length ≤ 4 := by
  have hflag : e.isCapturing t = false := hi.waiting t hj
  have hfw : w.capturing_flag = flagOf t := hi.flag t w hth
  have hload : e.load w.capturing_flag = false := by
    rw [hfw]
    cases t <;> simpa [flagOf, Engine.load, Engine.isCapturing] using hflag
  have hc : loopCondition e w.capturing_flag = false := by simp [loopCondition, hload]
  have returned : ∀ (e0 : Engine) (w0 : Worker), e0.terminated = false → e0.joining = some t →
      e0.thread t = some w0 → w0.pc = Pc.returned →
      ∃ e2, step e0 Event.joined = some e2 ∧ stopReturns t e0 Event.joined = true := by
    intro e0 w0 h1 h2 h3 h4
    refine ⟨{ e0.setThread t none with joining := none }, ?_, by simp [stopReturns, h2]⟩
    simp [step, h1, h2, h3, h4]
  -- from the loop head one evaluation of the loop condition ends the worker
  have fromHead : ∀ (e0 : Engine) (w0 : Worker), e0.terminated = false → e0.joining = some t →
      e0.thread t = some w0 → w0.pc = Pc.loopHead →
      loopCondition e0 w0.capturing_flag = false →
      ∃ e1 e2, run e0 [Event.poll t ⟨S_OK, 0⟩] = some e1 ∧
        step e1 Event.joined = some e2 ∧ stopReturns t e1 Event.joined = true := by
    intro e0 w0 h1 h2 h3 h4 h5
    obtain ⟨e2, h6, h7⟩ := returned
      (((e0.emit t (captureCleanup w0.pwfx)).store w0.capturing_flag false).setThread t
        (some { w0 with pc := Pc.returned }))
      { w0 with pc := Pc.returned } (by simpa using h1) (by simpa using h2) (by simp) rfl
    exact ⟨_, e2, by simp only [run, step_poll_exit e0 t w0 _ h1 h3 h4 h5], h6, h7⟩
  cases hpc : w.pc with
  | returned =>
    obtain ⟨e2, h1, h2⟩ := returned e w hterm hj hth hpc
    exact ⟨[], e, e2, rfl, h1, h2, by simp⟩
  | loopHead =>
    obtain ⟨e1, e2, h1, h2, h3⟩ := fromHead e w hterm hj hth hpc hc
    exact ⟨_, e1, e2, h1, h2, h3, by simp⟩
  | inner hr n =>
    have hidle : innerCondition S_OK 0 = false := by simp [innerCondition]
    cases hic : innerCondition hr n
    · obtain ⟨e1, e2, h1, h2, h3⟩ := fromHead
        ((e.emit t [Op.sleep 10]).setThread t (some { w with pc := Pc.loopHead }))
        { w with pc := Pc.loopHead } (by simpa using hterm) (by simpa using hj) (by simp) rfl
        (by simpa using hc)
      refine ⟨[Event.idle t, Event.poll t ⟨S_OK, 0⟩], e1, e2, ?_, h2, h3, by simp⟩
      simp only [run, step_idle e t w hr n hterm hth hpc hic] at h1 ⊢
      exact h1
    · obtain ⟨e1, e2, h1, h2, h3⟩ := fromHead
        ((((e.emit t (deliver w.callback ⟨S_OK, 0, 0⟩)).setThread t
            (some { w with pc := Pc.inner S_OK 0 })).emit t [Op.sleep 10]).setThread t
          (some { w with pc := Pc.loopHead }))
        { w with pc := Pc.loopHead } (by simpa using hterm) (by simpa using hj) (by simp) rfl
        (by simpa using hc)
      refine ⟨[Event.fetch t ⟨S_OK, 0, 0⟩ ⟨S_OK, 0⟩, Event.idle t, Event.poll t ⟨S_OK, 0⟩],
        e1, e2, ?_, h2, h3, by simp⟩
      simp only [run, step_fetch e t w hr n _ _ hterm hth hpc hic] at h1 ⊢
      rw [step_idle _ t { w with pc := Pc.inner S_OK 0 } S_OK 0 (by simpa using hterm)
        (by simp) rfl hidle]
      exact h1
  | entry =>
    have hstep : step e (Event.setup t noDeviceScript) =
        some (((e.emit t (captureSetup w.loopback w.deviceId noDeviceScript).1).store
          w.capturing_flag false).setThread t (some { w with pc := Pc.returned })) := by
      have hnone : (captureSetup w.loopback w.deviceId noDeviceScript).2 = none :=
        (captureSetup_clean_exit w.loopback w.deviceId noDeviceScript
          ⟨fun _ => rfl, fun h => absurd h (by decide)⟩ (by decide) (Or.inl (by decide))).1
      simp [step, hterm, hth, workerStep, hpc, hnone]
    obtain ⟨e2, h1, h2⟩ := returned
      (((e.emit t (captureSetup w.loopback w.deviceId noDeviceScript).1).store
        w.capturing_flag false).setThread t (some { w with pc := Pc.returned }))
      { w with pc := Pc.returned } (by simpa using hterm) (by simpa using hj) (by simp) rfl
    refine ⟨[Event.setup t noDeviceScript], _, e2, ?_, h1, h2, by simp⟩
    simp only [run, hstep]


/-! ## Thread members of sessions whose worker ended by itself -/

/-- C12, evaluated: after a start whose worker fails during set-up, and
likewise after a worker has left its loop on the cancellation signal of the
other session, the running flag of the session is false while its thread
member still holds the finished, never joined thread; the stop call of the
session is then a no-op, the next start of the session move-assigns onto the
joinable member and ends in `std::terminate` without returning, and so does
the destructor when it destroys the member. -/
theorem self_exited_worker_stays_joinable :
    (run Engine.new failedStart).map
        (fun e => (e.terminated, e.microphone_capturing_, e.microphone_thread_.isSome,
          workerExited e false, decide (StopMicrophoneCapture e = e))) =
      some (false, false, true, true, true) ∧
    (run Engine.new failedStart).map
        (fun e => ((StartMicrophoneCapture e "" (some 2)).returned,
          (StartMicrophoneCapture e "" (some 2)).engine.terminated)) =
      some (none, true) ∧
    ((run Engine.new failedStart).bind (fun e => destroy e [] [])).map
        (fun e => e.terminated) = some true ∧
    (run Engine.new microphoneCancelledBySystemStop).map
        (fun e => (e.terminated, e.microphone_capturing_, e.microphone_thread_.isSome,
          (StartMicrophoneCapture e "" (some 2)).returned,
          (StartMicrophoneCapture e "" (some 2)).engine.terminated)) =
      some (false, false, true, none, true) ∧
    ((run Engine.new microphoneCancelledBySystemStop).bind (fun e => destroy e [] [])).map
        (fun e => e.terminated) = some true := by
  refine ⟨by decide, by decide, by decide, by decide, by decide⟩


/-! ## The transport encoding is standard base64 -/

/-- The four index expressions of `OnAudioData` in terms of division and
remainder of the three octets. -/
theorem sextets_of_triple (a b c : Nat) (ha : a < 256) (hb : b < 256) (hc : c < 256) :
    (((a <<< 16) ||| (b <<< 8) ||| c) >>> 18) &&& 0x3F = a / 4 ∧
    (((a <<< 16) ||| (b <<< 8) ||| c) >>> 12) &&& 0x3F = a % 4 * 16 + b / 16 ∧
    (((a <<< 16) ||| (b <<< 8) ||| c) >>> 6) &&& 0x3F = b % 16 * 4 + c / 64 ∧
    ((a <<< 16) ||| (b <<< 8) ||| c) &&& 0x3F = c % 64 := by
  have h1 : (a <<< 16) ||| (b <<< 8) = 2 ^ 8 * (a * 256 + b) := by
    rw [Nat.shiftLeft_eq, Nat.shiftLeft_eq]
    have hlt : b * 2 ^ 8 < 2 ^ 16 := by omega
    have := Nat.mul_add_lt_is_or hlt a
    rw [Nat.mul_comm (2 ^ 16) a] at this
    rw [← this]
    omega
  have h2 : (a <<< 16) ||| (b <<< 8) ||| c = a * 65536 + b * 256 + c := by
    rw [h1]
    have hlt : c < 2 ^ 8 := by omega
    rw [← Nat.mul_add_lt_is_or hlt]
    omega
  have h63 : (0x3F : Nat) = 2 ^ 6 - 1 := rfl
  rw [h2, h63]
  simp only [Nat.shiftRight_eq_div_pow, Nat.and_pow_two_sub_one_eq_mod]
  refine ⟨?_, ?_, ?_, ?_⟩ <;> omega

/-- The table of the source is the base64 alphabet. -/
theorem base64_chars_eq_alphabet (k : Nat) (hk : k < 64) :
    base64_chars.getD k 'A' = alphabet k := by
  have h : ∀ j : Fin 64, base64_chars.getD j.val 'A' = alphabet j.val := by decide
  exact h ⟨k, hk⟩

/-- Every value below 64 is recovered from its character. -/
theorem sextet_alphabet (k : Nat) (hk : k < 64) : sextet (alphabet k) = some k := by
  have h : ∀ j : Fin 64, sextet (alphabet j.val) = some j.val := by decide
  exact h ⟨k, hk⟩

/-- No character of the alphabet is the padding character. -/
theorem alphabet_ne_pad (k : Nat) (hk : k < 64) : alphabet k ≠ '=' := by
  have h : ∀ j : Fin 64, alphabet j.val ≠ '=' := by decide
  exact h ⟨k, hk⟩

/-- Reading the source buffer at an index past a dropped prefix. -/
theorem getD_of_drop (data : List Byte) (i j : Nat) (x : Byte)
    (h : (data.drop i)[j]? = some x) : data.getD (i + j) 0 = x := by
  rw [List.getElem?_drop] at h
  simp [List.getD_eq_getElem?_getD, h]

/-- The characters of one loop iteration in terms of the alphabet, for the
three shapes of the rest of the buffer. -/
theorem encodeStep_alphabet (size i : Nat) (data : List Byte) (a b c : Nat)
    (ha : a < 256) (hb : b < 256) (hc : c < 256) (h1 h2 : Bool)
    (hstep : encodeStep data size i =
      [base64_chars.getD ((((a <<< 16) ||| (b <<< 8) ||| c) >>> 18) &&& 0x3F) 'A',
       base64_chars.getD ((((a <<< 16) ||| (b <<< 8) ||| c) >>> 12) &&& 0x3F) 'A',
       if h1 = true then
         base64_chars.getD ((((a <<< 16) ||| (b <<< 8) ||| c) >>> 6) &&& 0x3F) 'A'
       else '=',
       if h2 = true then base64_chars.getD (((a <<< 16) ||| (b <<< 8) ||| c) &&& 0x3F) 'A'
       else '=']) :
    encodeStep data size i =
      [alphabet (a / 4), alphabet (a % 4 * 16 + b / 16),
       if h1 = true then alphabet (b % 16 * 4 + c / 64) else '=',
       if h2 = true then alphabet (c % 64) else '='] := by
  obtain ⟨e1, e2, e3, e4⟩ := sextets_of_triple a b c ha hb hc
  rw [hstep, e1, e2, e3, e4]
  rw [base64_chars_eq_alphabet _ (by omega), base64_chars_eq_alphabet _ (by omega),
    base64_chars_eq_alphabet _ (by omega), base64_chars_eq_alphabet _ (by omega)]

/-- One loop iteration appends the standard encoding of the next group. -/
theorem encodeStep_drop (data : List Byte) (i : Nat) (hi : i < data.length)
    (hsize : data.length + 2 < SIZE_RANGE) :
    encodeStep data data.length i ++ base64Encode (data.drop (i + 3)) =
      base64Encode (data.drop i) := by
  have hlen : (data.drop i).length = data.length - i := List.length_drop i data
  have hdd : data.drop (i + 3) = (data.drop i).drop 3 := by
    rw [List.drop_drop, Nat.add_comm]
  have m1 : (i + 1) % SIZE_RANGE = i + 1 := Nat.mod_eq_of_lt (by omega)
  have m2 : (i + 2) % SIZE_RANGE = i + 2 := Nat.mod_eq_of_lt (by omega)
  rw [hdd]
  cases h : data.drop i with
  | nil =>
    rw [h] at hlen
    simp at hlen
    omega
  | cons a t1 =>
    have ga : data.getD i 0 = a := by
      have := getD_of_drop data i 0 a (by rw [h]; simp)
      simpa using this
    cases t1 with
    | nil =>
      rw [h] at hlen
      simp only [List.length_cons, List.length_nil] at hlen
      have c1 : ¬ (i + 1 < data.length) := by omega
      have c2 : ¬ (i + 2 < data.length) := by omega
      have hs := encodeStep_alphabet data.length i data a.val 0 0 a.isLt (by omega) (by omega)
        false false (by simp only [encodeStep, m1, m2, hi, c1, c2, ga, if_true, if_false,
          Bool.false_eq_true])
      rw [hs]
      simp [base64Encode]
    | cons b t2 =>
      have gb : data.getD (i + 1) 0 = b := getD_of_drop data i 1 b (by rw [h]; simp)
      cases t2 with
      | nil =>
        rw [h] at hlen
        simp only [List.length_cons, List.length_nil] at hlen
        have c1 : i + 1 < data.length := by omega
        have c2 : ¬ (i + 2 < data.length) := by omega
        have hs := encodeStep_alphabet data.length i data a.val b.val 0 a.isLt b.isLt
          (by omega) true false (by simp only [encodeStep, m1, m2, hi, c1, c2, ga, gb, if_true, if_false,
            Bool.false_eq_true])
        rw [hs]
        simp [base64Encode]
      | cons c rest =>
        have gc : data.getD (i + 2) 0 = c := getD_of_drop data i 2 c (by rw [h]; simp)
        rw [h] at hlen
        simp only [List.length_cons] at hlen
        have c1 : i + 1 < data.length := by omega
        have c2 : i + 2 < data.length := by omega
        have hs := encodeStep_alphabet data.length i data a.val b.val c.val a.isLt b.isLt
          c.isLt true true (by simp only [encodeStep, m1, m2, hi, c1, c2, ga, gb, gc, if_true])
        rw [hs]
        simp [base64Encode]

/-- The loop of `OnAudioData` ends within its fuel and appends the standard
encoding of the bytes from its index on. -/
theorem encodeLoop_eq (data : List Byte) (hsize : data.length + 2 < SIZE_RANGE)
    (fuel i : Nat) (base64 : List Char) (hi2 : i ≤ data.length + 2)
    (hfuel : data.length + 3 ≤ i + 3 * fuel) :
    encodeLoop data data.length fuel i base64 = some (base64 ++ base64Encode (data.drop i)) := by
  induction fuel generalizing i base64 with
  | zero => omega
  | succ fuel ih =>
    unfold encodeLoop
    by_cases hi : i < data.length
    · have m3 : (i + 3) % SIZE_RANGE = i + 3 := Nat.mod_eq_of_lt (by omega)
      rw [if_pos hi, m3, ih (i + 3) _ (by omega) (by omega), List.append_assoc,
        encodeStep_drop data i hi hsize]
    · rw [if_neg hi, List.drop_eq_nil_of_le (by omega)]
      simp [base64Encode]

/-- The length of the standard encoding. -/
theorem length_base64Encode (data : List Byte) :
    (base64Encode data).length = 4 * ((data.length + 2) / 3) := by
  induction data using base64Encode.induct with
  | case1 => rfl
  | case2 a => simp [base64Encode]
  | case3 a b => simp [base64Encode]
  | case4 a b c rest ih =>
    simp only [base64Encode, List.length_cons, ih]
    omega

/-- The standard encoding consists of characters of the alphabet followed by
at most two padding characters. -/
theorem charset_base64Encode (data : List Byte) :
    ∃ body pad, base64Encode data = body ++ pad ∧
      (∀ ch ∈ body, isBase64Char ch = true) ∧
      (pad = [] ∨ pad = ['='] ∨ pad = ['=', '=']) := by
  have hal : ∀ k, k < 64 → isBase64Char (alphabet k) = true := by
    intro k hk
    simp [isBase64Char, sextet_alphabet k hk]
  induction data using base64Encode.induct with
  | case1 => exact ⟨[], [], rfl, by simp, Or.inl rfl⟩
  | case2 a =>
    have := a.isLt
    refine ⟨[alphabet (a.val / 4), alphabet (a.val % 4 * 16)], ['=', '='], rfl, ?_,
      Or.inr (Or.inr rfl)⟩
    intro ch hch
    simp only [List.mem_cons, List.mem_singleton, List.not_mem_nil, or_false] at hch
    rcases hch with rfl | rfl <;> exact hal _ (by omega)
  | case3 a b =>
    have := a.isLt
    have := b.isLt
    refine ⟨[alphabet (a.val / 4), alphabet (a.val % 4 * 16 + b.val / 16),
      alphabet (b.val % 16 * 4)], ['='], rfl, ?_, Or.inr (Or.inl rfl)⟩
    intro ch hch
    simp only [List.mem_cons, List.mem_singleton, List.not_mem_nil, or_false] at hch
    rcases hch with rfl | rfl | rfl <;> exact hal _ (by omega)
  | case4 a b c rest ih =>
    have := a.isLt
    have := b.isLt
    have := c.isLt
    obtain ⟨body, pad, h1, h2, h3⟩ := ih
    refine ⟨alphabet (a.val / 4) :: alphabet (a.val % 4 * 16 + b.val / 16) ::
      alphabet (b.val % 16 * 4 + c.val / 64) :: alphabet (c.val % 64) :: body, pad, ?_, ?_, h3⟩
    · simp [base64Encode, h1]
    · intro ch hch
      simp only [List.mem_cons] at hch
      rcases hch with rfl | rfl | rfl | rfl | hch
      · exact hal _ (by omega)
      · exact hal _ (by omega)
      · exact hal _ (by omega)
      · exact hal _ (by omega)
      · exact h2 ch hch

/-- The standard decoder inverts the standard encoder. -/
theorem base64Decode_base64Encode (data : List Byte) :
    base64Decode (base64Encode data) = some data := by
  induction data using base64Encode.induct with
  | case1 => rfl
  | case2 a =>
    have ha := a.isLt
    simp only [base64Encode, base64Decode, List.isEmpty_nil, if_true,
      sextet_alphabet _ (show a.val / 4 < 64 by omega),
      sextet_alphabet _ (show a.val % 4 * 16 < 64 by omega)]
    refine congrArg some (congrArg (fun x => [x]) (Fin.ext ?_))
    simp only [Fin.ofNat, Fin.val_mk]
    omega
  | case3 a b =>
    have ha := a.isLt
    have hb := b.isLt
    have hne : alphabet (b.val % 16 * 4) ≠ '=' := alphabet_ne_pad _ (by omega)
    simp only [base64Encode, base64Decode, List.isEmpty_nil, if_true, if_neg hne,
      sextet_alphabet _ (show a.val / 4 < 64 by omega),
      sextet_alphabet _ (show a.val % 4 * 16 + b.val / 16 < 64 by omega),
      sextet_alphabet _ (show b.val % 16 * 4 < 64 by omega)]
    have e1 : (Fin.ofNat (a.val / 4 * 4 + (a.val % 4 * 16 + b.val / 16) / 16) : Byte) = a := by
      apply Fin.ext
      simp only [Fin.ofNat, Fin.val_mk]
      omega
    have e2 : (Fin.ofNat ((a.val % 4 * 16 + b.val / 16) % 16 * 16 + b.val % 16 * 4 / 4) :
        Byte) = b := by
      apply Fin.ext
      simp only [Fin.ofNat, Fin.val_mk]
      omega
    rw [e1, e2]
  | case4 a b c rest ih =>
    have ha := a.isLt
    have hb := b.isLt
    have hc := c.isLt
    have hne : alphabet (c.val % 64) ≠ '=' := alphabet_ne_pad _ (by omega)
    simp only [base64Encode, base64Decode, if_neg hne, ih,
      sextet_alphabet _ (show a.val / 4 < 64 by omega),
      sextet_alphabet _ (show a.val % 4 * 16 + b.val / 16 < 64 by omega),
      sextet_alphabet _ (show b.val % 16 * 4 + c.val / 64 < 64 by omega),
      sextet_alphabet _ (show c.val % 64 < 64 by omega)]
    have e1 : (Fin.ofNat (a.val / 4 * 4 + (a.val % 4 * 16 + b.val / 16) / 16) : Byte) = a := by
      apply Fin.ext
      simp only [Fin.ofNat, Fin.val_mk]
      omega
    have e2 : (Fin.ofNat ((a.val % 4 * 16 + b.val / 16) % 16 * 16 +
        (b.val % 16 * 4 + c.val / 64) / 4) : Byte) = b := by
      apply Fin.ext
      simp only [Fin.ofNat, Fin.val_mk]
      omega
    have e3 : (Fin.ofNat ((b.val % 16 * 4 + c.val / 64) % 4 * 64 + c.val % 64) : Byte) = c := by
      apply Fin.ext
      simp only [Fin.ofNat, Fin.val_mk]
      omega
    rw [e1, e2, e3]

/-- C11: for every buffer that fits the address space (shorter than `2 ^ 63`
bytes, so that neither the `size_t` index nor the conversion of the size to
`int64_t` wraps), `OnAudioData` with a channel and an engine sends exactly one
event; its text is the standard padded base64 encoding of the buffer, of
length `4 * ceil (n / 3)`, made of characters `A-Z a-z 0-9 + /` followed by at
most two `=`; the standard decoder returns the buffer from it; its size field
is the number of bytes and its type names the stream. -/
theorem transport_encoding_round_trips (data : List Byte) (isSystemAudio : Bool)
    (hsize : data.length < 2 ^ 63) :
    ∃ ev, OnAudioData true true data isSystemAudio = some [ev] ∧
      ev.data.toList = base64Encode data ∧
      ev.data.length = 4 * ((data.length + 2) / 3) ∧
      (∃ body pad, ev.data.toList = body ++ pad ∧
        (∀ ch ∈ body, isBase64Char ch = true) ∧
        (pad = [] ∨ pad = ['='] ∨ pad = ['=', '='])) ∧
      base64Decode ev.data.toList = some data ∧
      ev.size = (data.length : Int) ∧
      ev.type = (if isSystemAudio then "system" else "microphone") := by
  have hrange : data.length + 2 < SIZE_RANGE := by
    simp only [SIZE_RANGE]
    omega
  have hloop := encodeLoop_eq data hrange (data.length + 1) 0 [] (by omega) (by omega)
  simp only [List.drop_zero, List.nil_append] at hloop
  have hmod : data.length % SIZE_RANGE = data.length := Nat.mod_eq_of_lt (by omega)
  refine ⟨{ type := if isSystemAudio then "system" else "microphone"
            data := String.mk (base64Encode data)
            size := (data.length : Int) }, ?_, rfl, ?_, charset_base64Encode data,
    base64Decode_base64Encode data, rfl, rfl⟩
  · simp only [OnAudioData, hloop, Bool.and_self, if_true, toInt64, hmod, hsize]
  · exact length_base64Encode data

/-- Witness for C11: four bytes, a full group and a final group of one. -/
theorem transport_encoding_round_trips_witness :
    ∃ ev, OnAudioData true true sampleBytes true = some [ev] ∧
      ev.data = "TWFu/w==" ∧ base64Decode ev.data.toList = some sampleBytes ∧ ev.size = 4 :=
  have h := transport_encoding_round_trips sampleBytes true (by decide)
  h.imp fun ev h1 => ⟨h1.1, by
    have h2 := h1.2.1
    have h3 : base64Encode sampleBytes = "TWFu/w==".toList := by decide
    rw [h3] at h2
    exact String.ext h2, h1.2.2.2.2.1, h1.2.2.2.2.2.1⟩

end AudioCapture
